import Mathlib

/-!
Verification of the filter/re-aggregation engine of the `credito-rural-parana`
dashboard (source: `src/dashboard/src/hooks/useData.js`, given as
`src/unnamed/part_000`).  The JavaScript engine is shallowly embedded:

* records are structures with `Option`-valued fields (a missing JS property is
  `none`);
* JS numbers holding measures are modelled as `Int` (the engine only adds and
  compares them);
* JS truthiness tests (`if (x)`, `x || y`) are modelled explicitly by
  `truthyN` / `truthyS` / `jsOrN`;
* the insertion-ordered JS object used for grouping is modelled by an
  association-list fold (`upsertGroup`), which preserves first-appearance key
  order exactly as JS string-keyed objects do;
* `Array.prototype.sort` with comparator `(a, b) => b.valor - a.valor` is a
  stable descending sort by `valor`; it is modelled by the stable insertion
  sort `sortDesc` (stability and sortedness are proved below);
* the nullable variant of the pipeline (for the totality claim) models a JS
  `TypeError` on `.filter` of `null`/`undefined` by `Except.error`.
-/

namespace CRP

/-- JS truthiness of an optional number (absent or `0` is falsy). -/
def truthyN (o : Option Nat) : Bool :=
  match o with
  | none => false
  | some v => v != 0

/-- JS truthiness of an optional string (absent or `""` is falsy). -/
def truthyS (o : Option String) : Bool :=
  match o with
  | none => false
  | some s => s != ""

/-- JS `a || b` on optional numbers: `b` when `a` is falsy. -/
def jsOrN (a b : Option Nat) : Option Nat :=
  if truthyN a then a else b

/-- JS `item.mes || 1`: a missing or zero month defaults to `1`. -/
def mesOr1 (o : Option Nat) : Nat :=
  match o with
  | none => 1
  | some 0 => 1
  | some (n+1) => n+1

/-- A pre-aggregated record (one row of `byFinalidade`, `byPrograma`,
`byProduto`, `byMunicipio`, `byAno` or `byMes`).  Fields a given collection
does not carry are `none`. -/
structure Rec where
  ano : Nat
  mes : Option Nat := none
  finalidade : Option String := none
  programa : Option String := none
  produto : Option String := none
  municipio : Option String := none
  name : Option String := none
  codIbge : Option Nat := none
  valor : Option Int := none
  contratos : Option Int := none
  area : Option Int := none
deriving Repr, DecidableEq

/-- The UI filter state destructured at the top of `useFilteredData`. -/
structure Filters where
  anoMin : Option Nat := none
  anoMax : Option Nat := none
  mesMin : Option Nat := none
  mesMax : Option Nat := none
  finalidade : Option String := none
  programa : Option String := none
  produto : Option String := none
  municipio : Option String := none
  ano : Option Nat := none
  granularidade : Option String := none
deriving Repr, DecidableEq

/-- The per-record test of `filterByPeriod` (the body of its `items.filter`
callback), on a record's year and optional month. -/
def periodPass (anoMin anoMax mesMin mesMax : Option Nat) (ano : Nat)
    (mesOpt : Option Nat) : Bool :=
  let mes := mesOr1 mesOpt
  if truthyN anoMin && decide (ano < anoMin.getD 0) then false
  else if truthyN anoMax && decide (anoMax.getD 0 < ano) then false
  else if truthyN anoMin && (ano == anoMin.getD 0) && truthyN mesMin
          && decide (mes < mesMin.getD 0) then false
  else if truthyN anoMax && (ano == anoMax.getD 0) && truthyN mesMax
          && decide (mesMax.getD 0 < mes) then false
  else true

/-- `filterByPeriod` on a (non-null) record collection. -/
def filterByPeriod (items : List Rec) (anoMin anoMax mesMin mesMax : Option Nat) :
    List Rec :=
  items.filter fun item => periodPass anoMin anoMax mesMin mesMax item.ano item.mes

/-- One aggregated group produced by `aggregateByKey` (the JS object
`{ [key]: k, valor, contratos, area, codIbge?, rank? }`). -/
structure AggRow where
  key : Option String
  valor : Int
  contratos : Int
  area : Int
  codIbge : Option Nat := none
  rank : Option Nat := none
deriving Repr, DecidableEq

/-- Creation of a fresh group in `aggregateByKey`
(`grouped[k] = { [key]: k, valor: 0, contratos: 0, area: 0 }` plus the
conditional `codIbge` copy from the creating item). -/
def initGroup (k : Option String) (item : Rec) : AggRow :=
  { key := k, valor := 0, contratos := 0, area := 0
    codIbge := if truthyN item.codIbge then item.codIbge else none }

/-- The three `+=` accumulations of `aggregateByKey`
(`x || 0` on a missing measure is `getD 0`). -/
def accumGroup (g : AggRow) (item : Rec) : AggRow :=
  { g with valor := g.valor + item.valor.getD 0
           contratos := g.contratos + item.contratos.getD 0
           area := g.area + item.area.getD 0 }

/-- One iteration of the `items.forEach` grouping loop of `aggregateByKey`:
the insertion-ordered JS object `grouped` is an association list keyed by
`item[key]`; a present key is updated in place, a new key is appended. -/
def upsertGroup (keyOf : Rec → Option String) (acc : List AggRow) (item : Rec) :
    List AggRow :=
  match acc with
  | [] => [accumGroup (initGroup (keyOf item) item) item]
  | g :: rest =>
      if g.key == keyOf item then accumGroup g item :: rest
      else g :: upsertGroup keyOf rest item

/-- The grouping phase of `aggregateByKey`: `Object.values(grouped)` in key
first-appearance order. -/
def buildGroups (keyOf : Rec → Option String) (items : List Rec) : List AggRow :=
  items.foldl (upsertGroup keyOf) []

/-- Stable insertion (descending by valuation `v`): the new element goes after
every element whose value is `≥` its own, exactly as a JS stable
`sort((a, b) => b.valor - a.valor)` keeps tied elements in input order. -/
def insertDesc (v : α → Int) (x : α) : List α → List α
  | [] => [x]
  | y :: ys => if v y < v x then x :: y :: ys else y :: insertDesc v x ys

/-- Stable descending sort by valuation `v`, modelling
`Array.prototype.sort((a, b) => b.valor - a.valor)` (stable per the ES
specification). -/
def sortDesc (v : α → Int) (l : List α) : List α :=
  l.foldl (fun acc x => insertDesc v x acc) []

/-- `result.forEach((item, i) => item.rank = i + 1)`: dense rank assignment
starting from index `i`. -/
def assignRanks : Nat → List AggRow → List AggRow
  | _, [] => []
  | i, g :: rest => { g with rank := some i } :: assignRanks (i+1) rest

/-- `aggregateByKey(items, key, includeRank)` (non-null `items`; the JS null
guard lives in `aggregateByKeyN` below). -/
def aggregateByKey (items : List Rec) (keyOf : Rec → Option String)
    (includeRank : Bool := false) : List AggRow :=
  if items.length = 0 then []
  else
    let result := sortDesc (fun g => g.valor) (buildGroups keyOf items)
    if includeRank then assignRanks 1 result else result

/-- The four categorical filter blocks of `useFilteredData` applied, in source
order, to the period-filtered `byFinalidade`, `byPrograma`, `byProduto` and
`byMunicipio` collections. -/
def applyCategoricalFilters (fs : Filters) (fFin fProg fProd fMun : List Rec) :
    List Rec × List Rec × List Rec × List Rec :=
  -- `if (finalidade) { ... }`
  let fFin := if truthyS fs.finalidade then
    fFin.filter (fun d => d.finalidade == fs.finalidade) else fFin
  let fProg := if truthyS fs.finalidade then
    fProg.filter (fun d => d.finalidade == fs.finalidade) else fProg
  let fProd := if truthyS fs.finalidade then
    fProd.filter (fun d => d.finalidade == fs.finalidade) else fProd
  -- `if (programa) { ... }` (byProduto has no programa field in source data)
  let fFin := if truthyS fs.programa then
    fFin.filter (fun d => d.programa == fs.programa) else fFin
  let fProg := if truthyS fs.programa then
    fProg.filter (fun d => d.programa == fs.programa) else fProg
  let fMun := if truthyS fs.programa then
    fMun.filter (fun d => d.programa == fs.programa) else fMun
  -- `if (produto) { ... }`
  let fProd := if truthyS fs.produto then
    fProd.filter (fun d => d.produto == fs.produto) else fProd
  let fFin := if truthyS fs.produto then
    fFin.filter (fun d => !truthyS d.produto || d.produto == fs.produto) else fFin
  let fProg := if truthyS fs.produto then
    fProg.filter (fun d => !truthyS d.produto || d.produto == fs.produto) else fProg
  -- `if (municipio) { ... }`
  let fMun := if truthyS fs.municipio then
    fMun.filter (fun d => d.name == fs.municipio || d.municipio == fs.municipio)
    else fMun
  (fFin, fProg, fProd, fMun)

/-- A Sankey node `{id, label}`. -/
structure SNode where
  id : String
  label : String
deriving Repr, DecidableEq

/-- A Sankey link `{source, target, value}`. -/
structure SLink where
  source : String
  target : String
  value : Int
deriving Repr, DecidableEq

/-- The flow graph `{nodes, links}`. -/
structure Sankey where
  nodes : List SNode
  links : List SLink
deriving Repr, DecidableEq

/-- The `nodeById` lookup object (`nodes.forEach(n => nodeById[n.id] = n)`):
for duplicate ids the last assignment wins. -/
def nodeById (nodes : List SNode) (i : String) : Option SNode :=
  nodes.foldl (fun acc n => if n.id = i then some n else acc) none

/-- Node layer, per `getNodeType`. -/
inductive NodeType where
  | programa
  | finalidade
  | produto
deriving Repr, DecidableEq, BEq

/-- `String.startsWith`, expressed over the underlying character lists (the
same function, in a form the proof checker can evaluate on literals). -/
def strStartsWith (s p : String) : Bool :=
  p.data.isPrefixOf s.data

/-- `getNodeType`: layer derived from the id tag ("prog_", "fin_", "prod_");
a falsy or untagged id yields `null`. -/
def getNodeType (nodeId : String) : Option NodeType :=
  if strStartsWith nodeId "prog_" then some NodeType.programa
  else if strStartsWith nodeId "fin_" then some NodeType.finalidade
  else if strStartsWith nodeId "prod_" then some NodeType.produto
  else none

/-- First pass of the Sankey pruner: the set (as a list, membership only) of
purpose-node ids directly linked from the selected program node; empty when no
program filter is active. -/
def allowedFinalidades (nodes : List SNode) (links : List SLink)
    (programa : Option String) : List String :=
  if truthyS programa then
    (links.filter fun link =>
      match nodeById nodes link.source with
      | some sourceNode =>
          some sourceNode.label == programa
            && getNodeType link.target == some NodeType.finalidade
      | none => false).map (·.target)
  else []

/-- The link-survival callback of the Sankey pruner (`links.filter(link => ...)`),
with its guard chain in source order. -/
def linkPass (nodes : List SNode) (allowed : List String)
    (finalidade programa produto : Option String) (link : SLink) : Bool :=
  if link.value ≤ 0 then false
  else
    let sourceType := getNodeType link.source
    let targetType := getNodeType link.target
    match nodeById nodes link.source, nodeById nodes link.target with
    | none, _ => false
    | some _, none => false
    | some sourceNode, some targetNode =>
      if truthyS programa && sourceType == some NodeType.programa
          && !(some sourceNode.label == programa) then false
      else if truthyS programa && sourceType == some NodeType.finalidade
          && targetType == some NodeType.produto
          && !(allowed.contains link.source) then false
      else if truthyS finalidade && sourceType == some NodeType.finalidade
          && !(some sourceNode.label == finalidade) then false
      else if truthyS finalidade && targetType == some NodeType.finalidade
          && !(some targetNode.label == finalidade) then false
      else if truthyS produto && targetType == some NodeType.produto
          && !(some targetNode.label == produto) then false
      else true

/-- The surviving links of the Sankey pruner. -/
def filteredLinksOf (data : Sankey) (finalidade programa produto : Option String) :
    List SLink :=
  data.links.filter
    (linkPass data.nodes (allowedFinalidades data.nodes data.links programa)
      finalidade programa produto)

/-- The Sankey-pruning block of `useFilteredData`: with no active categorical
filter, or with an empty surviving link set, the original graph is returned
unchanged. -/
def filterSankey (data : Sankey) (finalidade programa produto : Option String) :
    Sankey :=
  if truthyS programa || truthyS finalidade || truthyS produto then
    let filteredLinks := filteredLinksOf data finalidade programa produto
    let touched := filteredLinks.flatMap (fun link => [link.source, link.target])
    let usedNodes := data.nodes.filter (fun n => touched.contains n.id)
    if 0 < filteredLinks.length then ⟨usedNodes, filteredLinks⟩ else data
  else data

/-- A row of the bump (leaderboard) source collection. -/
structure BumpRec where
  id : String
  ano : Nat
  programa : Option String := none
  name : Option String := none
  municipio : Option String := none
  valor : Option Int := none
  rank : Option Nat := none
deriving Repr, DecidableEq

/-- A collapsed bump entry `{id, ano, valor}` (one value of
`bumpByYearMunicipio`). -/
structure BumpEntry where
  id : String
  ano : Nat
  valor : Int
deriving Repr, DecidableEq

/-- One iteration of the bump collapse loop.  The JS object is keyed by the
string `` `${ano}_${id}` ``; since the year contains no underscore, that key is
in bijection with the pair `(ano, id)`. -/
def upsertBump (acc : List BumpEntry) (d : BumpRec) : List BumpEntry :=
  match acc with
  | [] => [⟨d.id, d.ano, d.valor.getD 0⟩]
  | e :: rest =>
      if e.ano == d.ano && e.id == d.id then
        { e with valor := e.valor + d.valor.getD 0 } :: rest
      else e :: upsertBump rest d

/-- `items.slice(0, 20).forEach((item, index) => push({...item, rank: index + 1}))`:
the pushed rows carry only `id`, `ano`, `valor` and the fresh rank. -/
def assignBumpRanks : Nat → List BumpEntry → List BumpRec
  | _, [] => []
  | i, e :: rest =>
      { id := e.id, ano := e.ano, valor := some e.valor, rank := some i }
        :: assignBumpRanks (i+1) rest

/-- The distinct years of the collapsed entries.  JS objects iterate
integer-like keys (`byYear` is keyed by the year) in ascending numeric order,
so `Object.entries(byYear)` enumerates the distinct years ascending (sorting
descending by `-y` is sorting ascending by `y`). -/
def bumpYears (entries : List BumpEntry) : List Nat :=
  sortDesc (fun y => -(y : Int)) ((entries.map (·.ano)).dedup)

/-- The ranked top-20 block of one year in the bump recompute branch. -/
def bumpRankYear (entries : List BumpEntry) (y : Nat) : List BumpRec :=
  let items := sortDesc (fun e => e.valor) (entries.filter (fun e => e.ano == y))
  assignBumpRanks 1 (items.take 20)

/-- The no-program-filter branch of the bump block: collapse per
`(year, municipality)`, then per year sort descending, truncate to 20 and
assign dense ranks. -/
def bumpRecompute (rows : List BumpRec) : List BumpRec :=
  let entries := rows.foldl upsertBump []
  (bumpYears entries).flatMap (bumpRankYear entries)

/-- The year-range filter applied to the bump collection
(`data.bump?.filter(...) || []` — the nullable guard lives at the dataset
level, see `DatasetN`). -/
def bumpPeriodFilter (bump : List BumpRec) (effAnoMin effAnoMax : Option Nat) :
    List BumpRec :=
  bump.filter fun d =>
    !(truthyN effAnoMin && decide (d.ano < effAnoMin.getD 0))
      && !(truthyN effAnoMax && decide (effAnoMax.getD 0 < d.ano))

/-- The whole bump block of `useFilteredData`. -/
def filterBump (bump : List BumpRec) (effAnoMin effAnoMax : Option Nat)
    (programa municipio : Option String) : List BumpRec :=
  let fb := bumpPeriodFilter bump effAnoMin effAnoMax
  let fb := if truthyS programa then fb.filter (fun d => d.programa == programa)
            else bumpRecompute fb
  if truthyS municipio then
    fb.filter fun d =>
      d.name == municipio || d.municipio == municipio || some d.id == municipio
  else fb

/-- A gender row of `byGenero.byAnoMes`. -/
structure GenRec where
  ano : Nat
  mes : Option Nat := none
  genero : Option String := none
  valor : Int := 0
deriving Repr, DecidableEq

/-- The gender totals `{masculino, feminino}`. -/
structure GTotals where
  masculino : Int
  feminino : Int
deriving Repr, DecidableEq

/-- The `byGenero` slice of the dataset. -/
structure Genero where
  byAnoMes : Option (List GenRec) := none
  totals : Option GTotals := none
deriving Repr, DecidableEq

/-- `filterByPeriod` applied to the gender rows (same JS function, same
predicate). -/
def filterGenRecs (rows : List GenRec) (anoMin anoMax mesMin mesMax : Option Nat) :
    List GenRec :=
  rows.filter fun item => periodPass anoMin anoMax mesMin mesMax item.ano item.mes

/-- `reduce((s, d) => s + d.valor, 0)` over the gender rows of one gender. -/
def generoSum (rows : List GenRec) (g : String) : Int :=
  (rows.filter (fun d => d.genero == some g)).foldl (fun s d => s + d.valor) 0

/-- The gender block of `useFilteredData`: period-filter `byAnoMes` when
present, then recompute the totals only when at least one row survived,
falling back to the dataset's overall totals otherwise. -/
def generoStage (byGenero : Option Genero) (anoMin anoMax mesMin mesMax : Option Nat) :
    Option GTotals :=
  let filteredGenero : Option Genero :=
    match byGenero with
    | some g =>
        match g.byAnoMes with
        | some rows =>
            some { g with byAnoMes := some (filterGenRecs rows anoMin anoMax mesMin mesMax) }
        | none => some g
    | none => none
  let generoTotals := byGenero.bind (·.totals)
  match filteredGenero with
  | some g =>
      match g.byAnoMes with
      | some rows =>
          if 0 < rows.length then
            some { masculino := generoSum rows "masculino"
                   feminino := generoSum rows "feminino" }
          else generoTotals
      | none => generoTotals
  | none => generoTotals

/-- The in-memory dataset consumed by `useFilteredData` (well-shaped variant:
every record collection present; the nullable variant is `DatasetN`). -/
structure Dataset where
  byFinalidade : List Rec := []
  byPrograma : List Rec := []
  byProduto : List Rec := []
  byMunicipio : List Rec := []
  byAno : List Rec := []
  byMes : List Rec := []
  bump : List BumpRec := []
  byGenero : Option Genero := none
  sankey : Option Sankey := none
deriving Repr, DecidableEq

/-- `const effectiveAnoMin = ano || anoMin`. -/
def effectiveAnoMin (fs : Filters) : Option Nat :=
  jsOrN fs.ano fs.anoMin

/-- `const effectiveAnoMax = ano || anoMax`. -/
def effectiveAnoMax (fs : Filters) : Option Nat :=
  jsOrN fs.ano fs.anoMax

/-- The value returned by `useFilteredData` (the fields the claims are about;
`metadata`, `filters` and `forecasts` are passed through unchanged in source
and are omitted). -/
structure FilteredOut where
  byFinalidade : List Rec
  byPrograma : List Rec
  byProduto : List Rec
  byMunicipio : List Rec
  byAno : List Rec
  byMes : List Rec
  finalidadeTotals : List AggRow
  programaTotals : List AggRow
  produtoTotals : List AggRow
  municipioTotals : List AggRow
  byGenero : Option GTotals
  timeseries : List Rec
  bump : List BumpRec
  sankey : Option Sankey
deriving Repr, DecidableEq

/-- The body of `useFilteredData` over a well-shaped dataset. -/
def useFilteredData (data : Dataset) (fs : Filters) : FilteredOut :=
  let eMin := effectiveAnoMin fs
  let eMax := effectiveAnoMax fs
  let filteredFinalidade := filterByPeriod data.byFinalidade eMin eMax fs.mesMin fs.mesMax
  let filteredPrograma := filterByPeriod data.byPrograma eMin eMax fs.mesMin fs.mesMax
  let filteredProduto := filterByPeriod data.byProduto eMin eMax fs.mesMin fs.mesMax
  let filteredMunicipio := filterByPeriod data.byMunicipio eMin eMax fs.mesMin fs.mesMax
  let filteredAno := filterByPeriod data.byAno eMin eMax none none
  let filteredMes := filterByPeriod data.byMes eMin eMax fs.mesMin fs.mesMax
  let cascaded := applyCategoricalFilters fs filteredFinalidade filteredPrograma
    filteredProduto filteredMunicipio
  let filteredFinalidade := cascaded.1
  let filteredPrograma := cascaded.2.1
  let filteredProduto := cascaded.2.2.1
  let filteredMunicipio := cascaded.2.2.2
  let finalidadeTotals := aggregateByKey filteredFinalidade (·.finalidade)
  let programaTotals := aggregateByKey filteredPrograma (·.programa)
  let produtoTotals := (aggregateByKey filteredProduto (·.produto) true).take 50
  let municipioTotals := aggregateByKey filteredMunicipio (·.name) true
  let timeSeriesData := if fs.granularidade == some "mensal" then filteredMes else filteredAno
  let timeSeriesData := if truthyS fs.finalidade then
      timeSeriesData.filter (fun d => !truthyS d.finalidade || d.finalidade == fs.finalidade)
    else timeSeriesData
  let filteredBump := filterBump data.bump eMin eMax fs.programa fs.municipio
  let generoTotals := generoStage data.byGenero eMin eMax fs.mesMin fs.mesMax
  let sankeyData := data.sankey.map (filterSankey · fs.finalidade fs.programa fs.produto)
  { byFinalidade := filteredFinalidade
    byPrograma := filteredPrograma
    byProduto := filteredProduto
    byMunicipio := filteredMunicipio
    byAno := filteredAno
    byMes := filteredMes
    finalidadeTotals := finalidadeTotals
    programaTotals := programaTotals
    produtoTotals := produtoTotals
    municipioTotals := municipioTotals
    byGenero := generoTotals
    timeseries := timeSeriesData
    bump := filteredBump
    sankey := sankeyData }

/-- The headline totals of `useAggregations` (its `valorMedio` and `yoyChange`
fields involve float division and the wall clock and are outside the claims
under verification; the `totals` triple is modelled in full). -/
structure KpiTotals where
  valor : Int
  contratos : Int
  area : Int
deriving Repr, DecidableEq

/-- The `sourceData.reduce(...)` of `useAggregations` (starting from `{}`,
i.e. every measure starts at 0). -/
def kpiReduce (sourceData : List Rec) : KpiTotals :=
  sourceData.foldl
    (fun acc item =>
      { valor := acc.valor + item.valor.getD 0
        contratos := acc.contratos + item.contratos.getD 0
        area := acc.area + item.area.getD 0 })
    ⟨0, 0, 0⟩

/-- The totals computation of `useAggregations`: sums over the filtered
`byFinalidade` slice, with `area` overridden from `municipioTotals` when
neither a program nor a purpose filter is active and `municipioTotals` is
nonempty. -/
def useAggregations (filteredData : FilteredOut) (fs : Filters) : KpiTotals :=
  let sourceData := filteredData.byFinalidade
  let totals := kpiReduce sourceData
  if !truthyS fs.programa && !truthyS fs.finalidade
      && 0 < filteredData.municipioTotals.length then
    { totals with
        area := filteredData.municipioTotals.foldl (fun sum m => sum + m.area) 0 }
  else totals

/-- A dataset whose record collections may be missing (`null`/`undefined`),
for the totality claim. -/
structure DatasetN where
  byFinalidade : Option (List Rec) := none
  byPrograma : Option (List Rec) := none
  byProduto : Option (List Rec) := none
  byMunicipio : Option (List Rec) := none
deriving Repr, DecidableEq

/-- `filterByPeriod` on a possibly-null collection:
`if (!items || !Array.isArray(items)) return items;` returns the null value
unchanged. -/
def filterByPeriodN (items : Option (List Rec)) (anoMin anoMax mesMin mesMax : Option Nat) :
    Option (List Rec) :=
  match items with
  | none => none
  | some l => some (filterByPeriod l anoMin anoMax mesMin mesMax)

/-- A JS `coll.filter(p)` call on a possibly-null `coll`: a `TypeError` when
`coll` is `null`/`undefined`. -/
def jsFilter (o : Option (List Rec)) (p : Rec → Bool) : Except String (List Rec) :=
  match o with
  | none => Except.error "TypeError: Cannot read properties of null (reading filter)"
  | some l => Except.ok (l.filter p)

/-- One conditional categorical filter block over a possibly-null collection:
when the filter is inactive the collection (null or not) is passed through,
when active `.filter` is called on it. -/
def applyCatN (active : Bool) (p : Rec → Bool) (o : Option (List Rec)) :
    Except String (Option (List Rec)) :=
  if active then (jsFilter o p).map some else Except.ok o

/-- `aggregateByKey` on a possibly-null collection:
`if (!items || items.length === 0) return [];` does guard against null. -/
def aggregateByKeyN (o : Option (List Rec)) (keyOf : Rec → Option String)
    (includeRank : Bool) : List AggRow :=
  match o with
  | none => []
  | some l => aggregateByKey l keyOf includeRank

/-- The period-filter, cascade and re-aggregation stages of `useFilteredData`
over a dataset with possibly-missing collections, with JS exceptions made
explicit; blocks in source order. -/
def filterStageN (data : DatasetN) (fs : Filters) :
    Except String (List AggRow × List AggRow × List AggRow × List AggRow) := do
  let eMin := effectiveAnoMin fs
  let eMax := effectiveAnoMax fs
  let fFin := filterByPeriodN data.byFinalidade eMin eMax fs.mesMin fs.mesMax
  let fProg := filterByPeriodN data.byPrograma eMin eMax fs.mesMin fs.mesMax
  let fProd := filterByPeriodN data.byProduto eMin eMax fs.mesMin fs.mesMax
  let fMun := filterByPeriodN data.byMunicipio eMin eMax fs.mesMin fs.mesMax
  let fFin ← applyCatN (truthyS fs.finalidade) (fun d => d.finalidade == fs.finalidade) fFin
  let fProg ← applyCatN (truthyS fs.finalidade) (fun d => d.finalidade == fs.finalidade) fProg
  let fProd ← applyCatN (truthyS fs.finalidade) (fun d => d.finalidade == fs.finalidade) fProd
  let fFin ← applyCatN (truthyS fs.programa) (fun d => d.programa == fs.programa) fFin
  let fProg ← applyCatN (truthyS fs.programa) (fun d => d.programa == fs.programa) fProg
  let fMun ← applyCatN (truthyS fs.programa) (fun d => d.programa == fs.programa) fMun
  let fProd ← applyCatN (truthyS fs.produto) (fun d => d.produto == fs.produto) fProd
  let fFin ← applyCatN (truthyS fs.produto)
    (fun d => !truthyS d.produto || d.produto == fs.produto) fFin
  let fProg ← applyCatN (truthyS fs.produto)
    (fun d => !truthyS d.produto || d.produto == fs.produto) fProg
  let fMun ← applyCatN (truthyS fs.municipio)
    (fun d => d.name == fs.municipio || d.municipio == fs.municipio) fMun
  return (aggregateByKeyN fFin (·.finalidade) false,
          aggregateByKeyN fProg (·.programa) false,
          (aggregateByKeyN fProd (·.produto) true).take 50,
          aggregateByKeyN fMun (·.name) true)

/-! ### Properties of the stable descending sort -/

theorem insertDesc_eq (v : α → Int) (x : α) (l : List α) :
    insertDesc v x l
      = l.takeWhile (fun y => decide (v x ≤ v y)) ++
          x :: l.dropWhile (fun y => decide (v x ≤ v y)) := by
  induction l with
  | nil => simp [insertDesc]
  | cons y ys ih =>
      rw [insertDesc]
      by_cases h : v y < v x
      · have hd : (decide (v x ≤ v y)) = false := by simp; omega
        simp [List.takeWhile_cons, List.dropWhile_cons, hd, h]
      · have hd : (decide (v x ≤ v y)) = true := by simp; omega
        simp [List.takeWhile_cons, List.dropWhile_cons, hd, h, ih]

theorem insertDesc_perm (v : α → Int) (x : α) (l : List α) :
    (insertDesc v x l).Perm (x :: l) := by
  induction l with
  | nil => simp [insertDesc]
  | cons y ys ih =>
      rw [insertDesc]
      by_cases h : v y < v x
      · simp [h]
      · rw [if_neg h]
        exact (ih.cons y).trans (List.Perm.swap x y ys)

theorem sortDesc_loop_perm (v : α → Int) :
    ∀ (todo acc : List α),
      (todo.foldl (fun acc x => insertDesc v x acc) acc).Perm (acc ++ todo) := by
  intro todo
  induction todo with
  | nil => intro acc; simp
  | cons x rest ih =>
      intro acc
      simp only [List.foldl_cons]
      refine (ih (insertDesc v x acc)).trans ?_
      refine (((insertDesc_perm v x acc).append_right rest).trans ?_)
      exact List.perm_middle.symm

theorem sortDesc_perm (v : α → Int) (l : List α) : (sortDesc v l).Perm l := by
  simpa using sortDesc_loop_perm v l []

theorem mem_sortDesc (v : α → Int) {a : α} {l : List α} :
    a ∈ sortDesc v l ↔ a ∈ l :=
  (sortDesc_perm v l).mem_iff

theorem pairwise_insertDesc (v : α → Int) (x : α) :
    ∀ {l : List α}, l.Pairwise (fun a b => v b ≤ v a) →
      (insertDesc v x l).Pairwise (fun a b => v b ≤ v a) := by
  intro l h
  induction l with
  | nil => simp [insertDesc]
  | cons y ys ih =>
      rw [List.pairwise_cons] at h
      rw [insertDesc]
      by_cases hy : v y < v x
      · rw [if_pos hy, List.pairwise_cons]
        refine ⟨?_, List.pairwise_cons.mpr h⟩
        intro b hb
        rcases List.mem_cons.mp hb with rfl | hb
        · omega
        · have := h.1 b hb; omega
      · rw [if_neg hy, List.pairwise_cons]
        refine ⟨?_, ih h.2⟩
        intro b hb
        rcases List.mem_cons.mp ((insertDesc_perm v x ys).mem_iff.mp hb) with rfl | hb
        · omega
        · exact h.1 b hb

theorem sortDesc_loop_pairwise (v : α → Int) :
    ∀ (todo acc : List α), acc.Pairwise (fun a b => v b ≤ v a) →
      (todo.foldl (fun acc x => insertDesc v x acc) acc).Pairwise
        (fun a b => v b ≤ v a) := by
  intro todo
  induction todo with
  | nil => intro acc h; simpa using h
  | cons x rest ih => intro acc h; exact ih _ (pairwise_insertDesc v x h)

theorem sortDesc_pairwise (v : α → Int) (l : List α) :
    (sortDesc v l).Pairwise (fun a b => v b ≤ v a) :=
  sortDesc_loop_pairwise v l [] List.Pairwise.nil

theorem sublist_insertDesc (v : α → Int) (x : α) {s l : List α} (h : s.Sublist l) :
    s.Sublist (insertDesc v x l) := by
  rw [insertDesc_eq]
  rw [(List.takeWhile_append_dropWhile (fun y => decide (v x ≤ v y)) l).symm] at h
  rcases List.sublist_append_iff.mp h with ⟨s1, s2, rfl, h1, h2⟩
  exact h1.append (h2.cons x)

theorem mem_takeWhile_sorted (v : α → Int) {x a : α} :
    ∀ {l : List α}, l.Pairwise (fun a b => v b ≤ v a) → a ∈ l → v x ≤ v a →
      a ∈ l.takeWhile (fun y => decide (v x ≤ v y)) := by
  intro l h ha hva
  induction l with
  | nil => simp at ha
  | cons y ys ih =>
      rw [List.pairwise_cons] at h
      rcases List.mem_cons.mp ha with rfl | ha2
      · rw [List.takeWhile_cons, if_pos (by simpa using hva)]
        exact List.mem_cons_self _ _
      · have hya : v a ≤ v y := h.1 a ha2
        rw [List.takeWhile_cons, if_pos (by simp; omega)]
        exact List.mem_cons_of_mem _ (ih h.2 ha2)

theorem pair_sublist_insertDesc_self (v : α → Int) {a b : α} {l : List α}
    (hs : l.Pairwise (fun a b => v b ≤ v a)) (ha : a ∈ l) (hv : v b ≤ v a) :
    [a, b].Sublist (insertDesc v b l) := by
  rw [insertDesc_eq]
  have h1 : [a].Sublist (l.takeWhile (fun y => decide (v b ≤ v y))) :=
    List.singleton_sublist.mpr (mem_takeWhile_sorted v hs ha hv)
  have h2 : [b].Sublist (b :: l.dropWhile (fun y => decide (v b ≤ v y))) :=
    (List.nil_sublist _).cons₂ b
  simpa using h1.append h2

theorem stable_loop (v : α → Int) :
    ∀ (todo acc : List α), acc.Pairwise (fun a b => v b ≤ v a) →
      ∀ a b, v b ≤ v a →
        ([a, b].Sublist acc ∨ (a ∈ acc ∧ b ∈ todo) ∨ [a, b].Sublist todo) →
        [a, b].Sublist (todo.foldl (fun acc x => insertDesc v x acc) acc) := by
  intro todo
  induction todo with
  | nil =>
      intro acc _ a b _ hsrc
      simp only [List.foldl_nil]
      rcases hsrc with h | ⟨_, hb⟩ | h
      · exact h
      · simp at hb
      · have := h.length_le; simp at this
  | cons x rest ih =>
      intro acc hs a b hv hsrc
      simp only [List.foldl_cons]
      apply ih (insertDesc v x acc) (pairwise_insertDesc v x hs) a b hv
      rcases hsrc with h | ⟨ha, hb⟩ | h
      · exact Or.inl (sublist_insertDesc v x h)
      · rcases List.mem_cons.mp hb with rfl | hb2
        · exact Or.inl (pair_sublist_insertDesc_self v hs ha hv)
        · exact Or.inr (Or.inl
            ⟨(insertDesc_perm v x acc).mem_iff.mpr (List.mem_cons_of_mem x ha), hb2⟩)
      · cases h with
        | cons _ h2 => exact Or.inr (Or.inr h2)
        | cons₂ _ h2 =>
            exact Or.inr (Or.inl
              ⟨(insertDesc_perm v x acc).mem_iff.mpr (List.mem_cons_self x acc),
               List.singleton_sublist.mp h2⟩)

theorem pair_sublist_sortDesc (v : α → Int) {a b : α} {l : List α}
    (h : [a, b].Sublist l) (hv : v b ≤ v a) : [a, b].Sublist (sortDesc v l) :=
  stable_loop v l [] List.Pairwise.nil a b hv (Or.inr (Or.inr h))

/-! ### Grouping characterization for `aggregateByKey` -/

/-- Sum of `valor || 0` over records. -/
def sumValor (l : List Rec) : Int := (l.map (fun it => it.valor.getD 0)).sum

/-- Sum of `contratos || 0` over records. -/
def sumContratos (l : List Rec) : Int := (l.map (fun it => it.contratos.getD 0)).sum

/-- Sum of `area || 0` over records. -/
def sumArea (l : List Rec) : Int := (l.map (fun it => it.area.getD 0)).sum

/-- The records of `items` whose key equals `k`. -/
def groupItems (keyOf : Rec → Option String) (items : List Rec) (k : Option String) :
    List Rec :=
  items.filter (fun it => keyOf it == k)

/-- The `codIbge` carried by a group: the truthy `codIbge` of the first record
of the group, if any. -/
def firstCod : List Rec → Option Nat
  | [] => none
  | it :: _ => if truthyN it.codIbge then it.codIbge else none

/-- First-appearance deduplication of a key list (the key enumeration order of
a string-keyed JS object). -/
def firstKeys (ks : List (Option String)) : List (Option String) :=
  ks.foldl (fun acc k => if k ∈ acc then acc else acc ++ [k]) []

theorem accumGroup_key (g : AggRow) (item : Rec) : (accumGroup g item).key = g.key := rfl

theorem accumGroup_codIbge (g : AggRow) (item : Rec) :
    (accumGroup g item).codIbge = g.codIbge := rfl

theorem upsertGroup_map_key (keyOf : Rec → Option String) (acc : List AggRow)
    (item : Rec) :
    (upsertGroup keyOf acc item).map (·.key) =
      if keyOf item ∈ acc.map (·.key) then acc.map (·.key)
      else acc.map (·.key) ++ [keyOf item] := by
  induction acc with
  | nil => simp [upsertGroup, initGroup, accumGroup]
  | cons g rest ih =>
      rw [upsertGroup]
      by_cases h : g.key = keyOf item
      · simp [h, accumGroup]
      · have hb : (g.key == keyOf item) = false := by simp [h]
        by_cases hm : keyOf item ∈ rest.map (·.key)
        · simp [hb, ih, hm, Ne.symm h]
        · simp [hb, ih, hm, Ne.symm h]

theorem upsertGroup_nodup (keyOf : Rec → Option String) {acc : List AggRow}
    (item : Rec) (h : (acc.map (·.key)).Nodup) :
    ((upsertGroup keyOf acc item).map (·.key)).Nodup := by
  rw [upsertGroup_map_key]
  by_cases hm : keyOf item ∈ acc.map (·.key)
  · simpa [hm] using h
  · simp [hm, List.nodup_append, h]

theorem upsertGroup_find? (keyOf : Rec → Option String) (acc : List AggRow)
    (item : Rec) (k : Option String) :
    (upsertGroup keyOf acc item).find? (fun g => g.key == k) =
      if k = keyOf item then
        some (match acc.find? (fun g => g.key == keyOf item) with
              | some g => accumGroup g item
              | none => accumGroup (initGroup (keyOf item) item) item)
      else acc.find? (fun g => g.key == k) := by
  induction acc with
  | nil =>
      by_cases h : k = keyOf item
      · subst h
        simp [upsertGroup, List.find?_cons, accumGroup_key, initGroup]
      · have h2 : (keyOf item == k) = false := by
          simp only [beq_eq_false_iff_ne, ne_eq]
          exact fun he => h he.symm
        simp [upsertGroup, List.find?_cons, accumGroup_key, initGroup, h, h2]
  | cons g rest ih =>
      rw [upsertGroup]
      by_cases hg : g.key = keyOf item
      · have hb : (g.key == keyOf item) = true := by simp [hg]
        rw [if_pos hb]
        by_cases h : k = keyOf item
        · subst h
          simp [List.find?_cons, accumGroup_key, hg, hb]
        · have h3 : (g.key == k) = false := by
            simp only [beq_eq_false_iff_ne, ne_eq, hg]
            exact fun he => h he.symm
          have h4 : ((accumGroup g item).key == k) = false := by
            rw [accumGroup_key]; exact h3
          simp [List.find?_cons, h3, h4, h]
      · have hb : (g.key == keyOf item) = false := by simp [hg]
        rw [if_neg (by simp [hb])]
        by_cases hgk : g.key = k
        · have h4 : (g.key == k) = true := by simp [hgk]
          have h5 : ¬ k = keyOf item := by
            rw [← hgk]; exact fun he => hg he
          simp [List.find?_cons, h4, h5]
        · have h4 : (g.key == k) = false := by simp [hgk]
          simp only [List.find?_cons, h4]
          rw [ih]
          by_cases h : k = keyOf item
          · rw [if_pos h, if_pos h]
            simp [List.find?_cons, hb]
          · rw [if_neg h, if_neg h]

/-- Accumulation of a filtered group over an optional already-present group. -/
def groupAccum (g0 : Option AggRow) (k : Option String) (l : List Rec) :
    Option AggRow :=
  match g0 with
  | some g => some (l.foldl accumGroup g)
  | none =>
      match l with
      | [] => none
      | it :: rest => some (rest.foldl accumGroup (accumGroup (initGroup k it) it))

theorem groupItems_cons (keyOf : Rec → Option String) (it : Rec) (items : List Rec)
    (k : Option String) :
    groupItems keyOf (it :: items) k =
      if keyOf it == k then it :: groupItems keyOf items k
      else groupItems keyOf items k := by
  simp [groupItems, List.filter_cons]

theorem buildGroups_find? (keyOf : Rec → Option String) :
    ∀ (items : List Rec) (acc : List AggRow) (k : Option String),
      (items.foldl (upsertGroup keyOf) acc).find? (fun g => g.key == k) =
        groupAccum (acc.find? (fun g => g.key == k)) k (groupItems keyOf items k) := by
  intro items
  induction items with
  | nil =>
      intro acc k
      cases hf : acc.find? (fun g => g.key == k) <;>
        simp [groupAccum, hf, groupItems]
  | cons it rest ih =>
      intro acc k
      simp only [List.foldl_cons]
      rw [ih (upsertGroup keyOf acc it) k, upsertGroup_find?, groupItems_cons]
      by_cases hk : k = keyOf it
      · subst hk
        rw [if_pos rfl, if_pos (by simp)]
        cases hf : acc.find? (fun g => g.key == keyOf it) <;>
          simp [groupAccum, hf]
      · rw [if_neg hk, if_neg (by simp [Ne.symm hk])]

theorem find?_key_self :
    ∀ {rows : List AggRow}, ((rows.map (·.key)).Nodup) →
      ∀ {g : AggRow}, g ∈ rows →
        rows.find? (fun g2 => g2.key == g.key) = some g := by
  intro rows
  induction rows with
  | nil => intro _ g h; simp at h
  | cons h0 t ih =>
      intro hnd g hg
      rw [List.map_cons, List.nodup_cons] at hnd
      rcases List.mem_cons.mp hg with rfl | hgt
      · exact List.find?_cons_of_pos _ (by simp)
      · have hne : h0.key ≠ g.key := by
          intro he
          exact hnd.1 (he ▸ List.mem_map_of_mem (·.key) hgt)
        rw [List.find?_cons_of_neg _ (by simp [hne])]
        exact ih hnd.2 hgt

theorem buildGroups_nodup (keyOf : Rec → Option String) :
    ∀ (items : List Rec) (acc : List AggRow), ((acc.map (·.key)).Nodup) →
      (((items.foldl (upsertGroup keyOf) acc).map (·.key)).Nodup) := by
  intro items
  induction items with
  | nil => intro acc h; simpa using h
  | cons it rest ih =>
      intro acc h
      exact ih (upsertGroup keyOf acc it) (upsertGroup_nodup keyOf it h)

theorem foldl_accumGroup_valor :
    ∀ (l : List Rec) (g : AggRow), (l.foldl accumGroup g).valor = g.valor + sumValor l := by
  intro l
  induction l with
  | nil => intro g; simp [sumValor]
  | cons it rest ih =>
      intro g
      have := ih (accumGroup g it)
      simp only [List.foldl_cons, this, accumGroup, sumValor, List.map_cons,
        List.sum_cons] at *
      omega

theorem foldl_accumGroup_contratos :
    ∀ (l : List Rec) (g : AggRow),
      (l.foldl accumGroup g).contratos = g.contratos + sumContratos l := by
  intro l
  induction l with
  | nil => intro g; simp [sumContratos]
  | cons it rest ih =>
      intro g
      have := ih (accumGroup g it)
      simp only [List.foldl_cons, this, accumGroup, sumContratos, List.map_cons,
        List.sum_cons] at *
      omega

theorem foldl_accumGroup_area :
    ∀ (l : List Rec) (g : AggRow), (l.foldl accumGroup g).area = g.area + sumArea l := by
  intro l
  induction l with
  | nil => intro g; simp [sumArea]
  | cons it rest ih =>
      intro g
      have := ih (accumGroup g it)
      simp only [List.foldl_cons, this, accumGroup, sumArea, List.map_cons,
        List.sum_cons] at *
      omega

theorem foldl_accumGroup_codIbge :
    ∀ (l : List Rec) (g : AggRow), (l.foldl accumGroup g).codIbge = g.codIbge := by
  intro l
  induction l with
  | nil => intro g; rfl
  | cons it rest ih =>
      intro g
      rw [List.foldl_cons, ih (accumGroup g it)]
      rfl

theorem foldl_accumGroup_rank :
    ∀ (l : List Rec) (g : AggRow), (l.foldl accumGroup g).rank = g.rank := by
  intro l
  induction l with
  | nil => intro g; rfl
  | cons it rest ih =>
      intro g
      rw [List.foldl_cons, ih (accumGroup g it)]
      rfl

theorem buildGroups_mem_fields (keyOf : Rec → Option String) (items : List Rec)
    {g : AggRow} (hg : g ∈ buildGroups keyOf items) :
    g.valor = sumValor (groupItems keyOf items g.key) ∧
    g.contratos = sumContratos (groupItems keyOf items g.key) ∧
    g.area = sumArea (groupItems keyOf items g.key) ∧
    g.codIbge = firstCod (groupItems keyOf items g.key) ∧
    g.rank = none := by
  have hnd : ((buildGroups keyOf items).map (·.key)).Nodup :=
    buildGroups_nodup keyOf items [] (by simp)
  have hfind := find?_key_self hnd hg
  have hchar := buildGroups_find? keyOf items [] g.key
  rw [show ((([] : List AggRow).find? (fun g2 => g2.key == g.key)) = none) from rfl]
    at hchar
  rw [show (items.foldl (upsertGroup keyOf) [] = buildGroups keyOf items) from rfl,
    hfind] at hchar
  cases hgi : groupItems keyOf items g.key with
  | nil => rw [hgi] at hchar; simp [groupAccum] at hchar
  | cons it rest =>
      rw [hgi] at hchar
      simp only [groupAccum, Option.some.injEq] at hchar
      refine ⟨?_, ?_, ?_, ?_, ?_⟩
      · have h1 := congrArg AggRow.valor hchar
        rw [foldl_accumGroup_valor] at h1
        simpa [accumGroup, initGroup, sumValor] using h1
      · have h1 := congrArg AggRow.contratos hchar
        rw [foldl_accumGroup_contratos] at h1
        simpa [accumGroup, initGroup, sumContratos] using h1
      · have h1 := congrArg AggRow.area hchar
        rw [foldl_accumGroup_area] at h1
        simpa [accumGroup, initGroup, sumArea] using h1
      · have h1 := congrArg AggRow.codIbge hchar
        rw [foldl_accumGroup_codIbge] at h1
        simpa [accumGroup, initGroup, firstCod] using h1
      · have h1 := congrArg AggRow.rank hchar
        rw [foldl_accumGroup_rank] at h1
        simpa [accumGroup, initGroup] using h1

theorem buildGroups_map_key (keyOf : Rec → Option String) :
    ∀ (items : List Rec) (acc : List AggRow),
      (items.foldl (upsertGroup keyOf) acc).map (·.key) =
        (items.map keyOf).foldl (fun ks k => if k ∈ ks then ks else ks ++ [k])
          (acc.map (·.key)) := by
  intro items
  induction items with
  | nil => intro acc; simp
  | cons it rest ih =>
      intro acc
      simp only [List.foldl_cons, List.map_cons]
      rw [ih (upsertGroup keyOf acc it), upsertGroup_map_key]

theorem buildGroups_firstKeys (keyOf : Rec → Option String) (items : List Rec) :
    (buildGroups keyOf items).map (·.key) = firstKeys (items.map keyOf) := by
  simpa [firstKeys] using buildGroups_map_key keyOf items []

theorem assignRanks_map_rank :
    ∀ (i : Nat) (l : List AggRow),
      (assignRanks i l).map (·.rank) = (List.range' i l.length).map some := by
  intro i l
  induction l generalizing i with
  | nil => simp [assignRanks]
  | cons g rest ih => simp [assignRanks, List.range'_succ, ih]

theorem assignRanks_map_valor :
    ∀ (i : Nat) (l : List AggRow), (assignRanks i l).map (·.valor) = l.map (·.valor) := by
  intro i l
  induction l generalizing i with
  | nil => simp [assignRanks]
  | cons g rest ih => simp [assignRanks, ih]

theorem assignRanks_length :
    ∀ (i : Nat) (l : List AggRow), (assignRanks i l).length = l.length := by
  intro i l
  induction l generalizing i with
  | nil => simp [assignRanks]
  | cons g rest ih => simp [assignRanks, ih]

theorem assignRanks_mem :
    ∀ {i : Nat} {l : List AggRow} {g : AggRow}, g ∈ assignRanks i l →
      ∃ g0 ∈ l, g.key = g0.key ∧ g.valor = g0.valor ∧ g.contratos = g0.contratos ∧
        g.area = g0.area ∧ g.codIbge = g0.codIbge := by
  intro i l
  induction l generalizing i with
  | nil => intro g h; simp [assignRanks] at h
  | cons g0 rest ih =>
      intro g h
      rw [assignRanks] at h
      rcases List.mem_cons.mp h with rfl | h2
      · exact ⟨g0, List.mem_cons_self _ _, rfl, rfl, rfl, rfl, rfl⟩
      · obtain ⟨g1, hg1, hf⟩ := ih h2
        exact ⟨g1, List.mem_cons_of_mem _ hg1, hf⟩

theorem aggregateByKey_mem_fields (items : List Rec) (keyOf : Rec → Option String)
    (ir : Bool) {g : AggRow} (hg : g ∈ aggregateByKey items keyOf ir) :
    g.valor = sumValor (groupItems keyOf items g.key) ∧
    g.contratos = sumContratos (groupItems keyOf items g.key) ∧
    g.area = sumArea (groupItems keyOf items g.key) ∧
    g.codIbge = firstCod (groupItems keyOf items g.key) := by
  rw [aggregateByKey] at hg
  by_cases he : items.length = 0
  · rw [if_pos he] at hg; simp at hg
  · rw [if_neg he] at hg
    cases ir with
    | false =>
        simp only [Bool.false_eq_true, if_neg] at hg
        have hmem : g ∈ buildGroups keyOf items :=
          (mem_sortDesc _).mp (by simpa using hg)
        have := buildGroups_mem_fields keyOf items hmem
        exact ⟨this.1, this.2.1, this.2.2.1, this.2.2.2.1⟩
    | true =>
        simp only [if_pos] at hg
        obtain ⟨g0, hg0, hk, hv, hc, ha, hcod⟩ := assignRanks_mem hg
        have hmem : g0 ∈ buildGroups keyOf items := (mem_sortDesc _).mp hg0
        have hf := buildGroups_mem_fields keyOf items hmem
        rw [hk, hv, hc, ha, hcod]
        exact ⟨hf.1, hf.2.1, hf.2.2.1, hf.2.2.2.1⟩

theorem aggregateByKey_sorted (items : List Rec) (keyOf : Rec → Option String)
    (ir : Bool) :
    ((aggregateByKey items keyOf ir).map (·.valor)).Pairwise (fun a b => b ≤ a) := by
  rw [aggregateByKey]
  by_cases he : items.length = 0
  · simp [he]
  · rw [if_neg he]
    have hp := sortDesc_pairwise (fun g : AggRow => g.valor) (buildGroups keyOf items)
    have hmap :
        ((sortDesc (fun g : AggRow => g.valor) (buildGroups keyOf items)).map
          (·.valor)).Pairwise (fun a b => b ≤ a) :=
      List.pairwise_map.mpr hp
    cases ir with
    | false => simpa using hmap
    | true => simpa [assignRanks_map_valor] using hmap

theorem aggregateByKey_ranks (items : List Rec) (keyOf : Rec → Option String) :
    (aggregateByKey items keyOf true).map (·.rank) =
      (List.range' 1 (aggregateByKey items keyOf true).length).map some := by
  rw [aggregateByKey]
  by_cases he : items.length = 0
  · simp [he]
  · rw [if_neg he]
    simp [assignRanks_map_rank, assignRanks_length]

/-! ### Sum conservation through `aggregateByKey` -/

theorem upsertGroup_sum_valor (keyOf : Rec → Option String) (acc : List AggRow)
    (item : Rec) :
    ((upsertGroup keyOf acc item).map (·.valor)).sum =
      (acc.map (·.valor)).sum + item.valor.getD 0 := by
  induction acc with
  | nil => simp [upsertGroup, accumGroup, initGroup]
  | cons g rest ih =>
      rw [upsertGroup]
      by_cases h : g.key = keyOf item
      · simp only [h, beq_self_eq_true, if_true, List.map_cons, List.sum_cons]
        simp [accumGroup]
        omega
      · have hb : (g.key == keyOf item) = false := by simp [h]
        simp only [hb, Bool.false_eq_true, if_false, List.map_cons, List.sum_cons, ih]
        omega

theorem buildGroups_sum_valor (keyOf : Rec → Option String) :
    ∀ (items : List Rec) (acc : List AggRow),
      ((items.foldl (upsertGroup keyOf) acc).map (·.valor)).sum =
        (acc.map (·.valor)).sum + sumValor items := by
  intro items
  induction items with
  | nil => intro acc; simp [sumValor]
  | cons it rest ih =>
      intro acc
      simp only [List.foldl_cons, ih (upsertGroup keyOf acc it),
        upsertGroup_sum_valor, sumValor, List.map_cons, List.sum_cons]
      omega

theorem aggregateByKey_sum_valor (items : List Rec) (keyOf : Rec → Option String)
    (ir : Bool) :
    ((aggregateByKey items keyOf ir).map (·.valor)).sum = sumValor items := by
  rw [aggregateByKey]
  by_cases he : items.length = 0
  · rw [if_pos he, List.length_eq_zero.mp he]
    simp [sumValor]
  · rw [if_neg he]
    have hb := buildGroups_sum_valor keyOf items []
    have hs : ((sortDesc (fun g : AggRow => g.valor) (buildGroups keyOf items)).map
        (·.valor)).sum = ((buildGroups keyOf items).map (·.valor)).sum :=
      ((sortDesc_perm (fun g : AggRow => g.valor) (buildGroups keyOf items)).map
        (·.valor)).sum_eq
    cases ir with
    | false =>
        simp only [Bool.false_eq_true, if_false, hs]
        simpa using hb
    | true =>
        simp only [if_true, assignRanks_map_valor, hs]
        simpa using hb

/-! ### Collapse characterization for the bump (leaderboard) recompute -/

/-- Sum of `valor || 0` over the bump rows of one `(year, municipality)` pair. -/
def bumpSum (rows : List BumpRec) (y : Nat) (i : String) : Int :=
  ((rows.filter (fun d => d.ano == y && d.id == i)).map (fun d => d.valor.getD 0)).sum

/-- The accumulation step of the bump collapse. -/
def bumpAdd (e : BumpEntry) (d : BumpRec) : BumpEntry :=
  { e with valor := e.valor + d.valor.getD 0 }

theorem upsertBump_eq_bumpAdd (acc : List BumpEntry) (d : BumpRec) :
    upsertBump acc d =
      match acc with
      | [] => [⟨d.id, d.ano, d.valor.getD 0⟩]
      | e :: rest =>
          if e.ano == d.ano && e.id == d.id then bumpAdd e d :: rest
          else e :: upsertBump rest d := by
  cases acc <;> rfl

theorem upsertBump_map_key (acc : List BumpEntry) (d : BumpRec) :
    (upsertBump acc d).map (fun e => (e.ano, e.id)) =
      if (d.ano, d.id) ∈ acc.map (fun e => (e.ano, e.id)) then
        acc.map (fun e => (e.ano, e.id))
      else acc.map (fun e => (e.ano, e.id)) ++ [(d.ano, d.id)] := by
  induction acc with
  | nil => simp [upsertBump]
  | cons e rest ih =>
      rw [upsertBump]
      by_cases h : e.ano = d.ano ∧ e.id = d.id
      · have hb : (e.ano == d.ano && e.id == d.id) = true := by simp [h.1, h.2]
        simp [hb, bumpAdd, h.1, h.2]
      · have hb : (e.ano == d.ano && e.id == d.id) = false := by
          rcases not_and_or.mp h with h1 | h1 <;> simp [h1]
        have hne : ((d.ano, d.id) = (e.ano, e.id)) = False := by
          simp only [Prod.mk.injEq, eq_iff_iff, iff_false]
          exact fun he => h ⟨he.1.symm, he.2.symm⟩
        by_cases hm : (d.ano, d.id) ∈ rest.map (fun e => (e.ano, e.id))
        · simp [hb, ih, hm, hne]
        · simp [hb, ih, hm, hne]

theorem upsertBump_nodup {acc : List BumpEntry} (d : BumpRec)
    (h : (acc.map (fun e => (e.ano, e.id))).Nodup) :
    ((upsertBump acc d).map (fun e => (e.ano, e.id))).Nodup := by
  rw [upsertBump_map_key]
  by_cases hm : (d.ano, d.id) ∈ acc.map (fun e => (e.ano, e.id))
  · simpa [hm] using h
  · simp [hm, List.nodup_append, h]

theorem pairKeyFalse {a y : Nat} {b i : String} (h : ¬(y = a ∧ i = b)) :
    (a == y && b == i) = false := by
  rcases not_and_or.mp h with h1 | h1
  · have ha : (a == y) = false := by
      simp only [beq_eq_false_iff_ne, ne_eq]
      exact fun he => h1 he.symm
    simp [ha]
  · have hbf : (b == i) = false := by
      simp only [beq_eq_false_iff_ne, ne_eq]
      exact fun he => h1 he.symm
    simp [hbf]

theorem upsertBump_find? (acc : List BumpEntry) (d : BumpRec) (y : Nat) (i : String) :
    (upsertBump acc d).find? (fun e => e.ano == y && e.id == i) =
      if y = d.ano ∧ i = d.id then
        some (match acc.find? (fun e => e.ano == d.ano && e.id == d.id) with
              | some e => bumpAdd e d
              | none => ⟨d.id, d.ano, d.valor.getD 0⟩)
      else acc.find? (fun e => e.ano == y && e.id == i) := by
  induction acc with
  | nil =>
      by_cases h : y = d.ano ∧ i = d.id
      · have hdb : (d.ano == y && d.id == i) = true := by simp [h.1, h.2]
        rw [if_pos h]
        rw [show upsertBump [] d = [⟨d.id, d.ano, d.valor.getD 0⟩] from rfl]
        rw [List.find?_cons_of_pos _ (by simpa using hdb)]
        rfl
      · have hdb := pairKeyFalse h
        rw [if_neg h]
        rw [show upsertBump [] d = [⟨d.id, d.ano, d.valor.getD 0⟩] from rfl]
        rw [List.find?_cons_of_neg _ (by simpa using hdb)]
  | cons e rest ih =>
      rw [upsertBump]
      by_cases hg : e.ano = d.ano ∧ e.id = d.id
      · have hb : (e.ano == d.ano && e.id == d.id) = true := by simp [hg.1, hg.2]
        rw [if_pos hb]
        by_cases h : y = d.ano ∧ i = d.id
        · have hbe : (e.ano == y && e.id == i) = true := by
            simp [hg.1, hg.2, h.1.symm, h.2.symm]
          rw [if_pos h, List.find?_cons_of_pos _ (by simpa using hbe),
            List.find?_cons_of_pos _ (by simpa using hb)]
          rfl
        · have h3 : (e.ano == y && e.id == i) = false := by
            have := pairKeyFalse h
            simpa [hg.1, hg.2] using this
          rw [if_neg h, List.find?_cons_of_neg _ (by simp [h3]),
            List.find?_cons_of_neg _ (by simp [h3])]
      · have hb : (e.ano == d.ano && e.id == d.id) = false :=
          pairKeyFalse (fun hc => hg ⟨hc.1.symm, hc.2.symm⟩)
        rw [if_neg (by simp [hb])]
        by_cases hek : e.ano = y ∧ e.id = i
        · have h4 : (e.ano == y && e.id == i) = true := by simp [hek.1, hek.2]
          have h5 : ¬(y = d.ano ∧ i = d.id) := by
            intro hyd
            exact hg ⟨hek.1.trans hyd.1, hek.2.trans hyd.2⟩
          rw [if_neg h5, List.find?_cons_of_pos _ (by simpa using h4),
            List.find?_cons_of_pos _ (by simpa using h4)]
        · have h4 : (e.ano == y && e.id == i) = false :=
            pairKeyFalse (by exact fun hc => hek ⟨hc.1.symm, hc.2.symm⟩)
          rw [List.find?_cons_of_neg _ (by simp [h4]), ih]
          by_cases h : y = d.ano ∧ i = d.id
          · rw [if_pos h, if_pos h, List.find?_cons_of_neg _ (by simp [hb])]
          · rw [if_neg h, if_neg h, List.find?_cons_of_neg _ (by simp [h4])]

/-- Accumulation of a filtered bump group over an optional present entry. -/
def bumpGroupAccum (e0 : Option BumpEntry) (l : List BumpRec) : Option BumpEntry :=
  match e0 with
  | some e => some (l.foldl bumpAdd e)
  | none =>
      match l with
      | [] => none
      | d :: rest => some (rest.foldl bumpAdd ⟨d.id, d.ano, d.valor.getD 0⟩)

theorem bumpCollapse_find? :
    ∀ (rows : List BumpRec) (acc : List BumpEntry) (y : Nat) (i : String),
      (rows.foldl upsertBump acc).find? (fun e => e.ano == y && e.id == i) =
        bumpGroupAccum (acc.find? (fun e => e.ano == y && e.id == i))
          (rows.filter (fun d => d.ano == y && d.id == i)) := by
  intro rows
  induction rows with
  | nil =>
      intro acc y i
      cases hf : acc.find? (fun e => e.ano == y && e.id == i) <;>
        simp [bumpGroupAccum, hf]
  | cons d rest ih =>
      intro acc y i
      simp only [List.foldl_cons]
      rw [ih (upsertBump acc d) y i, upsertBump_find?, List.filter_cons]
      by_cases hk : y = d.ano ∧ i = d.id
      · obtain ⟨h1, h2⟩ := hk
        subst h1; subst h2
        rw [if_pos ⟨rfl, rfl⟩, if_pos (by simp)]
        cases hf : acc.find? (fun e => e.ano == d.ano && e.id == d.id) <;>
          simp [bumpGroupAccum, hf]
      · have hdk : (d.ano == y && d.id == i) = false := pairKeyFalse hk
        rw [if_neg hk, hdk, if_neg (by simp)]

theorem bump_find?_self :
    ∀ {rows : List BumpEntry}, ((rows.map (fun e => (e.ano, e.id))).Nodup) →
      ∀ {e : BumpEntry}, e ∈ rows →
        rows.find? (fun e2 => e2.ano == e.ano && e2.id == e.id) = some e := by
  intro rows
  induction rows with
  | nil => intro _ e h; simp at h
  | cons h0 t ih =>
      intro hnd e he
      rw [List.map_cons, List.nodup_cons] at hnd
      rcases List.mem_cons.mp he with rfl | het
      · exact List.find?_cons_of_pos _ (by simp)
      · have hne : ¬(h0.ano == e.ano && h0.id == e.id) = true := by
          intro hb
          simp only [Bool.and_eq_true, beq_iff_eq] at hb
          refine hnd.1 ?_
          rw [hb.1, hb.2]
          exact List.mem_map_of_mem _ het
        rw [List.find?_cons_of_neg _ (by exact hne)]
        exact ih hnd.2 het

theorem bumpCollapse_nodup :
    ∀ (rows : List BumpRec) (acc : List BumpEntry),
      ((acc.map (fun e => (e.ano, e.id))).Nodup) →
      (((rows.foldl upsertBump acc).map (fun e => (e.ano, e.id))).Nodup) := by
  intro rows
  induction rows with
  | nil => intro acc h; simpa using h
  | cons d rest ih => intro acc h; exact ih (upsertBump acc d) (upsertBump_nodup d h)

theorem foldl_bumpAdd_valor :
    ∀ (l : List BumpRec) (e : BumpEntry),
      (l.foldl bumpAdd e).valor = e.valor + ((l.map (fun d => d.valor.getD 0)).sum) := by
  intro l
  induction l with
  | nil => intro e; simp
  | cons d rest ih =>
      intro e
      rw [List.foldl_cons, ih (bumpAdd e d)]
      simp only [bumpAdd, List.map_cons, List.sum_cons]
      omega

theorem foldl_bumpAdd_id :
    ∀ (l : List BumpRec) (e : BumpEntry), (l.foldl bumpAdd e).id = e.id := by
  intro l
  induction l with
  | nil => intro e; rfl
  | cons d rest ih =>
      intro e
      rw [List.foldl_cons, ih (bumpAdd e d)]
      rfl

theorem foldl_bumpAdd_ano :
    ∀ (l : List BumpRec) (e : BumpEntry), (l.foldl bumpAdd e).ano = e.ano := by
  intro l
  induction l with
  | nil => intro e; rfl
  | cons d rest ih =>
      intro e
      rw [List.foldl_cons, ih (bumpAdd e d)]
      rfl

theorem bumpCollapse_mem_valor (rows : List BumpRec) {e : BumpEntry}
    (he : e ∈ rows.foldl upsertBump []) :
    e.valor = bumpSum rows e.ano e.id := by
  have hnd := bumpCollapse_nodup rows [] (by simp)
  have hfind := bump_find?_self hnd he
  have hchar := bumpCollapse_find? rows [] e.ano e.id
  rw [hfind] at hchar
  rw [show ((([] : List BumpEntry).find? (fun e2 => e2.ano == e.ano && e2.id == e.id))
    = none) from rfl] at hchar
  cases hgi : rows.filter (fun d => d.ano == e.ano && d.id == e.id) with
  | nil => rw [hgi] at hchar; simp [bumpGroupAccum] at hchar
  | cons d rest =>
      rw [hgi] at hchar
      simp only [bumpGroupAccum, Option.some.injEq] at hchar
      have h1 := congrArg BumpEntry.valor hchar
      rw [foldl_bumpAdd_valor] at h1
      rw [bumpSum, hgi]
      simp only [List.map_cons, List.sum_cons] at *
      omega

/-! ### Per-year block structure of the bump recompute -/

theorem assignBumpRanks_map_rank :
    ∀ (i : Nat) (l : List BumpEntry),
      (assignBumpRanks i l).map (·.rank) = (List.range' i l.length).map some := by
  intro i l
  induction l generalizing i with
  | nil => simp [assignBumpRanks]
  | cons e rest ih => simp [assignBumpRanks, List.range'_succ, ih]

theorem assignBumpRanks_map_valor :
    ∀ (i : Nat) (l : List BumpEntry),
      (assignBumpRanks i l).map (fun r => r.valor.getD 0) = l.map (·.valor) := by
  intro i l
  induction l generalizing i with
  | nil => simp [assignBumpRanks]
  | cons e rest ih => simp [assignBumpRanks, ih]

theorem assignBumpRanks_length :
    ∀ (i : Nat) (l : List BumpEntry), (assignBumpRanks i l).length = l.length := by
  intro i l
  induction l generalizing i with
  | nil => simp [assignBumpRanks]
  | cons e rest ih => simp [assignBumpRanks, ih]

theorem assignBumpRanks_mem :
    ∀ {i : Nat} {l : List BumpEntry} {r : BumpRec}, r ∈ assignBumpRanks i l →
      ∃ e ∈ l, r.id = e.id ∧ r.ano = e.ano ∧ r.valor = some e.valor := by
  intro i l
  induction l generalizing i with
  | nil => intro r h; simp [assignBumpRanks] at h
  | cons e rest ih =>
      intro r h
      rw [assignBumpRanks] at h
      rcases List.mem_cons.mp h with rfl | h2
      · exact ⟨e, List.mem_cons_self _ _, rfl, rfl, rfl⟩
      · obtain ⟨e1, he1, hf⟩ := ih h2
        exact ⟨e1, List.mem_cons_of_mem _ he1, hf⟩

theorem bumpRankYear_mem {entries : List BumpEntry} {y : Nat} {r : BumpRec}
    (hr : r ∈ bumpRankYear entries y) :
    ∃ e ∈ entries, r.id = e.id ∧ r.ano = e.ano ∧ r.valor = some e.valor ∧ e.ano = y := by
  rw [bumpRankYear] at hr
  obtain ⟨e, he, hf⟩ := assignBumpRanks_mem hr
  have he2 := (mem_sortDesc (fun e : BumpEntry => e.valor)).mp (List.mem_of_mem_take he)
  have he3 := List.mem_filter.mp he2
  exact ⟨e, he3.1, hf.1, hf.2.1, hf.2.2, by simpa using he3.2⟩

theorem bumpRankYear_ano {entries : List BumpEntry} {y : Nat} {r : BumpRec}
    (hr : r ∈ bumpRankYear entries y) : r.ano = y := by
  obtain ⟨e, _, _, h2, _, h4⟩ := bumpRankYear_mem hr
  rw [h2, h4]

theorem bumpRankYear_length (entries : List BumpEntry) (y : Nat) :
    (bumpRankYear entries y).length ≤ 20 := by
  rw [bumpRankYear, assignBumpRanks_length]
  exact List.length_take_le _ _

theorem bumpRankYear_ranks (entries : List BumpEntry) (y : Nat) :
    (bumpRankYear entries y).map (·.rank) =
      (List.range' 1 (bumpRankYear entries y).length).map some := by
  rw [bumpRankYear, assignBumpRanks_map_rank, assignBumpRanks_length]

theorem bumpRankYear_sorted (entries : List BumpEntry) (y : Nat) :
    ((bumpRankYear entries y).map (fun r => r.valor.getD 0)).Pairwise
      (fun a b => b ≤ a) := by
  rw [bumpRankYear, assignBumpRanks_map_valor]
  have hp := sortDesc_pairwise (fun e : BumpEntry => e.valor)
    (entries.filter (fun e => e.ano == y))
  exact List.pairwise_map.mpr (List.Pairwise.sublist (List.take_sublist 20 _) hp)

theorem filter_flatMap_norm (l : List Nat) (f : Nat → List BumpRec)
    (p : BumpRec → Bool) :
    (l.flatMap f).filter p = l.flatMap (fun a => (f a).filter p) := by
  induction l with
  | nil => simp
  | cons x rest ih => simp [List.flatMap_cons, List.filter_append, ih]

theorem flatMap_if_single {l : List Nat} (hnd : l.Nodup) (g : Nat → List BumpRec)
    (y : Nat) (hg : ∀ x ∈ l, x ≠ y → g x = []) :
    l.flatMap g = if y ∈ l then g y else [] := by
  induction l with
  | nil => simp
  | cons x rest ih =>
      rw [List.nodup_cons] at hnd
      rw [List.flatMap_cons]
      by_cases hx : x = y
      · subst hx
        have hrest : rest.flatMap g = [] := by
          rw [List.flatMap_eq_nil_iff]
          intro x2 hx2
          exact hg x2 (List.mem_cons_of_mem _ hx2) (fun he => hnd.1 (he ▸ hx2))
        simp [hrest]
      · rw [hg x (List.mem_cons_self _ _) hx,
          ih hnd.2 (fun x2 hx2 => hg x2 (List.mem_cons_of_mem _ hx2))]
        have hyx : ¬y = x := fun he => hx he.symm
        simp [List.mem_cons, hyx]

theorem bumpYears_nodup (entries : List BumpEntry) : (bumpYears entries).Nodup :=
  ((sortDesc_perm _ _).nodup_iff).mpr (List.nodup_dedup _)

theorem mem_bumpYears {entries : List BumpEntry} {y : Nat} :
    y ∈ bumpYears entries ↔ y ∈ entries.map (·.ano) :=
  ((sortDesc_perm _ _).mem_iff).trans List.mem_dedup

theorem bumpRecompute_filter (rows : List BumpRec) (y : Nat) :
    (bumpRecompute rows).filter (fun r => r.ano == y) =
      if y ∈ bumpYears (rows.foldl upsertBump []) then
        bumpRankYear (rows.foldl upsertBump []) y
      else [] := by
  rw [bumpRecompute, filter_flatMap_norm,
    flatMap_if_single (bumpYears_nodup _) _ y ?side]
  case side =>
    intro x hx hxy
    rw [List.filter_eq_nil_iff]
    intro r hr
    simp [bumpRankYear_ano hr, hxy]
  by_cases hy : y ∈ bumpYears (rows.foldl upsertBump [])
  · rw [if_pos hy, if_pos hy, List.filter_eq_self.mpr]
    intro r hr
    simp [bumpRankYear_ano hr]
  · rw [if_neg hy, if_neg hy]

/-! ### Sankey pruner lemmas -/

theorem nodeById_mem {nodes : List SNode} {i : String} {n : SNode}
    (h : nodeById nodes i = some n) : n ∈ nodes ∧ n.id = i := by
  have main : ∀ (ns : List SNode) (acc : Option SNode),
      ns.foldl (fun acc n2 => if n2.id = i then some n2 else acc) acc = some n →
        acc = some n ∨ (n ∈ ns ∧ n.id = i) := by
    intro ns
    induction ns with
    | nil => intro acc h2; exact Or.inl h2
    | cons n1 rest ih =>
        intro acc h2
        rw [List.foldl_cons] at h2
        rcases ih _ h2 with hacc | hrest
        · by_cases hid : n1.id = i
          · rw [if_pos hid] at hacc
            exact Or.inr ⟨by rw [← Option.some.inj hacc]; exact List.mem_cons_self _ _,
              by rw [← Option.some.inj hacc]; exact hid⟩
          · rw [if_neg hid] at hacc
            exact Or.inl hacc
        · exact Or.inr ⟨List.mem_cons_of_mem _ hrest.1, hrest.2⟩
  rw [nodeById] at h
  rcases main nodes none h with h2 | h2
  · simp at h2
  · exact h2

theorem linkPass_value {nodes : List SNode} {allowed : List String}
    {finalidade programa produto : Option String} {link : SLink}
    (h : linkPass nodes allowed finalidade programa produto link = true) :
    0 < link.value := by
  by_contra hv
  push_neg at hv
  rw [linkPass, if_pos hv] at h
  simp at h

theorem linkPass_nodes {nodes : List SNode} {allowed : List String}
    {finalidade programa produto : Option String} {link : SLink}
    (h : linkPass nodes allowed finalidade programa produto link = true) :
    (∃ sn, nodeById nodes link.source = some sn) ∧
    (∃ tn, nodeById nodes link.target = some tn) := by
  cases hs : nodeById nodes link.source with
  | none => simp [linkPass, hs] at h
  | some sn =>
      cases ht : nodeById nodes link.target with
      | none => simp [linkPass, hs, ht] at h
      | some tn => exact ⟨⟨sn, rfl⟩, ⟨tn, rfl⟩⟩

theorem filterSankey_active {data : Sankey} {finalidade programa produto : Option String}
    (hact : (truthyS programa || truthyS finalidade || truthyS produto) = true)
    (hne : filteredLinksOf data finalidade programa produto ≠ []) :
    filterSankey data finalidade programa produto =
      ⟨data.nodes.filter (fun n =>
          ((filteredLinksOf data finalidade programa produto).flatMap
            (fun link => [link.source, link.target])).contains n.id),
        filteredLinksOf data finalidade programa produto⟩ := by
  rw [filterSankey, if_pos hact]
  have h1 : 0 < (filteredLinksOf data finalidade programa produto).length :=
    List.length_pos.mpr hne
  simp only [h1, if_pos]

/-! ### Claim C5: the period filter -/

/-- A bound is well formed when it is absent or a positive number (years and
months in the dataset are positive; a JS `0` bound would be falsy and behave
as absent). -/
def wfBound (o : Option Nat) : Prop := ∀ n, o = some n → 0 < n

theorem periodPass_false_iff (anoMin anoMax mesMin mesMax : Option Nat)
    (ano : Nat) (mes : Option Nat) :
    (periodPass anoMin anoMax mesMin mesMax ano mes = false ↔
      (truthyN anoMin && decide (ano < anoMin.getD 0)) = true ∨
      (truthyN anoMax && decide (anoMax.getD 0 < ano)) = true ∨
      (truthyN anoMin && (ano == anoMin.getD 0) && truthyN mesMin
        && decide (mesOr1 mes < mesMin.getD 0)) = true ∨
      (truthyN anoMax && (ano == anoMax.getD 0) && truthyN mesMax
        && decide (mesMax.getD 0 < mesOr1 mes)) = true) := by
  cases h1 : (truthyN anoMin && decide (ano < anoMin.getD 0)) <;>
    cases h2 : (truthyN anoMax && decide (anoMax.getD 0 < ano)) <;>
    cases h3 : (truthyN anoMin && (ano == anoMin.getD 0) && truthyN mesMin
      && decide (mesOr1 mes < mesMin.getD 0)) <;>
    cases h4 : (truthyN anoMax && (ano == anoMax.getD 0) && truthyN mesMax
      && decide (mesMax.getD 0 < mesOr1 mes)) <;>
    simp [periodPass, h1, h2, h3, h4]

/-- C5: a record (year, optional month defaulting to 1) is excluded by the
period window exactly when `year < yearMin`, or `year > yearMax`, or
`year = yearMin` with `monthMin` set and `month < monthMin`, or `year =
yearMax` with `monthMax` set and `month > monthMax`; absent bounds exclude
nothing; and a truthy exact-year filter replaces both effective year bounds
with that single year. -/
theorem crp_c5 :
    (∀ (anoMin anoMax mesMin mesMax : Option Nat) (ano : Nat) (mes : Option Nat),
      wfBound anoMin → wfBound anoMax → wfBound mesMin → wfBound mesMax →
      wfBound mes →
      (periodPass anoMin anoMax mesMin mesMax ano mes = false ↔
        (∃ a, anoMin = some a ∧ ano < a) ∨
        (∃ a, anoMax = some a ∧ a < ano) ∨
        (anoMin = some ano ∧ ∃ m, mesMin = some m ∧ mes.getD 1 < m) ∨
        (anoMax = some ano ∧ ∃ m, mesMax = some m ∧ m < mes.getD 1)))
    ∧ (∀ (fs : Filters) (y : Nat), fs.ano = some y → 0 < y →
        effectiveAnoMin fs = some y ∧ effectiveAnoMax fs = some y) := by
  constructor
  · intro anoMin anoMax mesMin mesMax ano mes wf1 wf2 wf3 wf4 wf5
    rw [periodPass_false_iff]
    rcases anoMin with _ | a <;> rcases anoMax with _ | b <;>
      rcases mesMin with _ | c <;> rcases mesMax with _ | d2 <;>
      rcases mes with _ | (_ | m) <;>
      simp_all [wfBound, truthyN, mesOr1] <;>
      omega
  · intro fs y h hy
    have hne : y ≠ 0 := by omega
    simp [effectiveAnoMin, effectiveAnoMax, jsOrN, h, truthyN, hne]

/-! ### Claim C1: the categorical filter cascade -/

/-- Spec-side predicate: the purpose equality test, a no-op when the filter is
unset. -/
def passFin (fs : Filters) (r : Rec) : Bool :=
  !truthyS fs.finalidade || r.finalidade == fs.finalidade

/-- Spec-side predicate: the program equality test, a no-op when unset. -/
def passProg (fs : Filters) (r : Rec) : Bool :=
  !truthyS fs.programa || r.programa == fs.programa

/-- Spec-side predicate: the product test applied to collections whose records
may lack a product attribute (records without one pass). -/
def passProdWeak (fs : Filters) (r : Rec) : Bool :=
  !truthyS fs.produto || (!truthyS r.produto || r.produto == fs.produto)

/-- Spec-side predicate: the strict product equality test. -/
def passProdStrict (fs : Filters) (r : Rec) : Bool :=
  !truthyS fs.produto || r.produto == fs.produto

/-- Spec-side predicate: the municipality test (by display name or by
municipality attribute), a no-op when unset. -/
def passMun (fs : Filters) (r : Rec) : Bool :=
  !truthyS fs.municipio || (r.name == fs.municipio || r.municipio == fs.municipio)

theorem if_filter_eq (b : Bool) (p : Rec → Bool) (l : List Rec) :
    (if b then l.filter p else l) = l.filter (fun r => !b || p r) := by
  cases b <;> simp

/-- C1: each categorical equality filter touches exactly the collections that
carry the attribute: the by-purpose and by-program collections are filtered by
the purpose, program and weak product predicates; the by-product collection by
the purpose and strict product predicates (never by program); the
by-municipality collection by the program and municipality predicates only;
and when every categorical filter is absent the cascade is the identity. -/
theorem crp_c1 (fs : Filters) (a b c d : List Rec) :
    (applyCategoricalFilters fs a b c d).1 =
        a.filter (fun r => passFin fs r && passProg fs r && passProdWeak fs r)
    ∧ (applyCategoricalFilters fs a b c d).2.1 =
        b.filter (fun r => passFin fs r && passProg fs r && passProdWeak fs r)
    ∧ (applyCategoricalFilters fs a b c d).2.2.1 =
        c.filter (fun r => passFin fs r && passProdStrict fs r)
    ∧ (applyCategoricalFilters fs a b c d).2.2.2 =
        d.filter (fun r => passProg fs r && passMun fs r)
    ∧ (fs.finalidade = none → fs.programa = none → fs.produto = none →
        fs.municipio = none → applyCategoricalFilters fs a b c d = (a, b, c, d)) := by
  refine ⟨?_, ?_, ?_, ?_, ?_⟩
  · simp only [applyCategoricalFilters, if_filter_eq]
    simp only [List.filter_filter]
    refine List.filter_congr (fun r _ => ?_)
    simp [passFin, passProg, passProdWeak, Bool.and_comm, Bool.and_assoc,
      Bool.and_left_comm]
  · simp only [applyCategoricalFilters, if_filter_eq]
    simp only [List.filter_filter]
    refine List.filter_congr (fun r _ => ?_)
    simp [passFin, passProg, passProdWeak, Bool.and_comm, Bool.and_assoc,
      Bool.and_left_comm]
  · simp only [applyCategoricalFilters, if_filter_eq]
    simp only [List.filter_filter]
    refine List.filter_congr (fun r _ => ?_)
    simp [passFin, passProdStrict, Bool.and_comm, Bool.and_assoc,
      Bool.and_left_comm]
  · simp only [applyCategoricalFilters, if_filter_eq]
    simp only [List.filter_filter]
    refine List.filter_congr (fun r _ => ?_)
    simp [passProg, passMun, Bool.and_comm, Bool.and_assoc, Bool.and_left_comm]
  · intro h1 h2 h3 h4
    simp [applyCategoricalFilters, h1, h2, h3, h4, truthyS]

/-! ### Claim C7: value conservation through the aggregator -/

/-- C7: for every record collection (in particular every filtered one), every
grouping key and either rank mode, the sum of `valor` over the aggregator's
output groups equals the sum of `valor || 0` over the input records. -/
theorem crp_c7 (items : List Rec) (keyOf : Rec → Option String) (ir : Bool) :
    ((aggregateByKey items keyOf ir).map (·.valor)).sum = sumValor items :=
  aggregateByKey_sum_valor items keyOf ir

/-! ### Claim C10: gender totals fallback -/

/-- C10: when the dataset carries per-period gender rows, the returned gender
totals are the recomputed per-gender sums over the period-filtered rows if at
least one row survives, and the dataset's overall unfiltered totals otherwise. -/
theorem crp_c10 (rows : List GenRec) (totals : Option GTotals)
    (anoMin anoMax mesMin mesMax : Option Nat) :
    (filterGenRecs rows anoMin anoMax mesMin mesMax = [] →
      generoStage (some ⟨some rows, totals⟩) anoMin anoMax mesMin mesMax = totals)
    ∧ (filterGenRecs rows anoMin anoMax mesMin mesMax ≠ [] →
      generoStage (some ⟨some rows, totals⟩) anoMin anoMax mesMin mesMax =
        some ⟨generoSum (filterGenRecs rows anoMin anoMax mesMin mesMax) "masculino",
              generoSum (filterGenRecs rows anoMin anoMax mesMin mesMax) "feminino"⟩) := by
  constructor
  · intro h
    simp [generoStage, h]
  · intro h
    have hlen : 0 < (filterGenRecs rows anoMin anoMax mesMin mesMax).length :=
      List.length_pos.mpr h
    simp [generoStage, hlen]

/-- Witness for C10 at concrete inputs: a window that removes every gender row
falls back to the overall totals, and a window keeping a row recomputes. -/
theorem crp_c10_witness :
    generoStage (some ⟨some [⟨2020, some 1, some "masculino", 10⟩],
        some ⟨100, 50⟩⟩) (some 2025) (some 2026) none none = some ⟨100, 50⟩
    ∧ generoStage (some ⟨some [⟨2020, some 1, some "masculino", 10⟩],
        some ⟨100, 50⟩⟩) (some 2020) none none none = some ⟨10, 0⟩ := by
  constructor
  · exact (crp_c10 [⟨2020, some 1, some "masculino", 10⟩] (some ⟨100, 50⟩)
      (some 2025) (some 2026) none none).1 (by decide)
  · exact (crp_c10 [⟨2020, some 1, some "masculino", 10⟩] (some ⟨100, 50⟩)
      (some 2020) none none none).2 (by decide)

/-! ### Claim C9: totality over missing collections (code bug) -/

/-- C9 (refuted): a dataset whose `byFinalidade` collection is missing crashes
the engine as soon as the purpose filter is active: `filterByPeriod` returns
the null collection unchanged and the subsequent `.filter` call raises a
`TypeError`, contradicting the spec's total-by-defaulting policy.  The same
dataset with no categorical filter active is handled by the null guards. -/
theorem crp_c9_bug :
    filterStageN ⟨none, some [], some [], some []⟩ { finalidade := some "A" } =
      Except.error "TypeError: Cannot read properties of null (reading filter)"
    ∧ filterStageN ⟨none, some [], some [], some []⟩ {} =
      Except.ok ([], [], [], []) := by
  exact ⟨rfl, rfl⟩

/-! ### Claim C8: the KPI area source rule -/

theorem kpiReduce_go :
    ∀ (l : List Rec) (acc : KpiTotals),
      (l.foldl (fun acc item =>
        ({ valor := acc.valor + item.valor.getD 0
           contratos := acc.contratos + item.contratos.getD 0
           area := acc.area + item.area.getD 0 } : KpiTotals)) acc) =
        ⟨acc.valor + sumValor l, acc.contratos + sumContratos l,
          acc.area + sumArea l⟩ := by
  intro l
  induction l with
  | nil => intro acc; simp [sumValor, sumContratos, sumArea]
  | cons it rest ih =>
      intro acc
      rw [List.foldl_cons, ih]
      simp only [sumValor, sumContratos, sumArea, List.map_cons, List.sum_cons,
        KpiTotals.mk.injEq]
      refine ⟨?_, ?_, ?_⟩ <;> omega

theorem kpiReduce_eq (l : List Rec) :
    kpiReduce l = ⟨sumValor l, sumContratos l, sumArea l⟩ := by
  rw [kpiReduce, kpiReduce_go]
  simp

theorem foldl_add_area :
    ∀ (l : List AggRow) (s : Int),
      (l.foldl (fun sum m => sum + m.area) s) = s + (l.map (·.area)).sum := by
  intro l
  induction l with
  | nil => intro s; simp
  | cons m rest ih =>
      intro s
      rw [List.foldl_cons, ih]
      simp only [List.map_cons, List.sum_cons]
      omega

/-- C8 (amended): the KPI `area` total is sourced from the
municipality-dimension aggregate exactly when neither the program filter nor
the purpose filter is active and that aggregate is nonempty — the product and
municipality filters play no role in the choice; otherwise `area` is the sum
over the filtered primary (by-purpose) slice. -/
theorem crp_c8 (fd : FilteredOut) (fs : Filters) :
    (truthyS fs.programa = false → truthyS fs.finalidade = false →
      fd.municipioTotals ≠ [] →
      (useAggregations fd fs).area = (fd.municipioTotals.map (·.area)).sum)
    ∧ ((truthyS fs.programa = true ∨ truthyS fs.finalidade = true) →
      (useAggregations fd fs).area = sumArea fd.byFinalidade) := by
  constructor
  · intro h1 h2 h3
    have hlen : 0 < fd.municipioTotals.length := List.length_pos.mpr h3
    simp [useAggregations, h1, h2, hlen, foldl_add_area]
  · intro h
    rcases h with h | h
    · simp [useAggregations, h, kpiReduce_eq]
    · simp [useAggregations, h, kpiReduce_eq]

/-- The concrete dataset refuting C8 as stated: a product filter narrows the
primary slice, yet the KPI area still comes from the municipality aggregate. -/
def c8Data : Dataset where
  byFinalidade := [{ ano := 2020, finalidade := some "F", produto := some "X", area := some 5 }]
  byMunicipio := [{ ano := 2020, name := some "M", area := some 7 }]

/-- The filter state refuting C8: only the product filter is set. -/
def c8Fs : Filters := { produto := some "X" }

/-- C8 counterexample: with only the product filter active (a categorical
filter that narrows the primary slice), the KPI area total is the municipality
aggregate sum 7, not the filtered primary-slice sum 5. -/
theorem crp_c8_cex :
    truthyS c8Fs.produto = true
    ∧ (useFilteredData c8Data c8Fs).byFinalidade =
        [{ ano := 2020, finalidade := some "F", produto := some "X", area := some 5 : Rec }]
    ∧ sumArea (useFilteredData c8Data c8Fs).byFinalidade = 5
    ∧ (useAggregations (useFilteredData c8Data c8Fs) c8Fs).area = 7 := by
  refine ⟨rfl, ?_, ?_, ?_⟩ <;> decide

/-- Witness for C8 (amended) at concrete inputs, both branches. -/
theorem crp_c8_witness :
    (useAggregations (useFilteredData c8Data c8Fs) c8Fs).area = 7
    ∧ (useAggregations (useFilteredData c8Data { programa := some "P" })
        { programa := some "P" }).area =
        sumArea (useFilteredData c8Data { programa := some "P" }).byFinalidade := by
  constructor
  · have h := (crp_c8 (useFilteredData c8Data c8Fs) c8Fs).1 (by decide) (by decide)
      (by decide)
    rw [h]
    decide
  · exact (crp_c8 (useFilteredData c8Data { programa := some "P" })
      { programa := some "P" }).2 (Or.inl (by decide))

/-! ### Claims C2 and C3: the flow-graph pruner -/

theorem contains_iff_mem {l : List String} {a : String} :
    l.contains a = true ↔ a ∈ l :=
  List.elem_iff

/-- A graph with a single zero-value edge and no nodes. -/
def c2Graph : Sankey := ⟨[], [⟨"a", "b", 0⟩]⟩

/-- C2 counterexample: with the empty filter state the pruner returns the
original graph unchanged — the zero-value edge survives; and with an active
filter whose surviving edge set is empty, the fallback also returns the
original graph, zero-value edge included. -/
theorem crp_c2_cex :
    (filterSankey c2Graph none none none).links = [⟨"a", "b", 0⟩]
    ∧ filteredLinksOf c2Graph (some "Z") none none = []
    ∧ (filterSankey c2Graph (some "Z") none none).links = [⟨"a", "b", 0⟩] := by
  refine ⟨rfl, rfl, ?_⟩
  decide

/-- C2 (amended): when at least one categorical filter is active and the
surviving edge set is nonempty, every edge of the returned graph has a
strictly positive value; otherwise the pruner returns the input graph
unchanged (fallback), which may contain nonpositive edges. -/
theorem crp_c2 (data : Sankey) (finalidade programa produto : Option String)
    (hact : (truthyS programa || truthyS finalidade || truthyS produto) = true)
    (hne : filteredLinksOf data finalidade programa produto ≠ []) :
    ∀ l ∈ (filterSankey data finalidade programa produto).links, 0 < l.value := by
  intro l hl
  rw [filterSankey_active hact hne] at hl
  exact linkPass_value (List.mem_filter.mp hl).2

/-- A two-layer graph with one positive program→purpose edge. -/
def c23Witness : Sankey := ⟨[⟨"prog_A", "A"⟩, ⟨"fin_B", "B"⟩],
  [⟨"prog_A", "fin_B", 10⟩]⟩

/-- Witness for C2 (amended) at a concrete graph and program filter. -/
theorem crp_c2_witness :
    0 < (⟨"prog_A", "fin_B", 10⟩ : SLink).value := by
  exact crp_c2 c23Witness none (some "A") none (by decide) (by decide)
    ⟨"prog_A", "fin_B", 10⟩ (by decide)

/-- A graph with an orphan node and no edges. -/
def c3Graph : Sankey := ⟨[⟨"n1", "N"⟩], []⟩

/-- C3 counterexample: with the empty filter state the pruner returns the
original graph, so a node untouched by any edge is kept — the returned node
set is not the set of nodes touched by surviving edges. -/
theorem crp_c3_cex :
    (filterSankey c3Graph none none none).links = []
    ∧ (filterSankey c3Graph none none none).nodes ≠ [] := by
  refine ⟨rfl, ?_⟩
  decide

/-- C3 (amended): when at least one categorical filter is active and the
surviving edge set is nonempty, every returned edge references nodes of the
returned node set, and the returned node set is exactly the input nodes
touched by a surviving edge; otherwise the input graph is returned unchanged
(fallback). -/
theorem crp_c3 (data : Sankey) (finalidade programa produto : Option String)
    (hact : (truthyS programa || truthyS finalidade || truthyS produto) = true)
    (hne : filteredLinksOf data finalidade programa produto ≠ []) :
    (∀ l ∈ (filterSankey data finalidade programa produto).links,
      (∃ n ∈ (filterSankey data finalidade programa produto).nodes, n.id = l.source)
      ∧ (∃ n ∈ (filterSankey data finalidade programa produto).nodes, n.id = l.target))
    ∧ (∀ n, n ∈ (filterSankey data finalidade programa produto).nodes ↔
        n ∈ data.nodes ∧
        ∃ l ∈ (filterSankey data finalidade programa produto).links,
          n.id = l.source ∨ n.id = l.target) := by
  rw [filterSankey_active hact hne]
  constructor
  · intro l hl
    have hp := (List.mem_filter.mp hl).2
    obtain ⟨⟨sn, hs⟩, ⟨tn, ht⟩⟩ := linkPass_nodes hp
    have hsm := nodeById_mem hs
    have htm := nodeById_mem ht
    constructor
    · refine ⟨sn, ?_, hsm.2⟩
      rw [List.mem_filter]
      refine ⟨hsm.1, ?_⟩
      rw [contains_iff_mem, hsm.2]
      exact List.mem_flatMap.mpr ⟨l, hl, by simp⟩
    · refine ⟨tn, ?_, htm.2⟩
      rw [List.mem_filter]
      refine ⟨htm.1, ?_⟩
      rw [contains_iff_mem, htm.2]
      exact List.mem_flatMap.mpr ⟨l, hl, by simp⟩
  · intro n
    rw [List.mem_filter, contains_iff_mem, List.mem_flatMap]
    constructor
    · rintro ⟨h1, l, hl, h2⟩
      exact ⟨h1, l, hl, by simpa using h2⟩
    · rintro ⟨h1, l, hl, h2⟩
      exact ⟨h1, l, hl, by simpa using h2⟩

/-- Witness for C3 (amended) at a concrete graph and program filter: the
surviving edge's source node is in the returned node set. -/
theorem crp_c3_witness :
    ∃ n ∈ (filterSankey c23Witness none (some "A") none).nodes, n.id = "prog_A" := by
  have h := (crp_c3 c23Witness none (some "A") none (by decide) (by decide)).1
    ⟨"prog_A", "fin_B", 10⟩ (by decide)
  exact h.1

/-! ### Claim C4: the leaderboard (bump) recompute -/

/-- A bump row already carrying rank 2 from the dataset. -/
def c4Bump : List BumpRec :=
  [{ id := "m1", ano := 2020, programa := some "P1", valor := some 10, rank := some 2 }]

/-- C4 counterexample: with the program filter set, rows pass through with
their dataset rank field untouched; here the only 2020 row keeps rank 2, so
the per-period ranks are not a dense sequence starting at 1. -/
theorem crp_c4_cex :
    ((filterBump c4Bump none none (some "P1") none).filter
        (fun r => r.ano == 2020)).map (·.rank) = [some 2]
    ∧ ((filterBump c4Bump none none (some "P1") none).filter
        (fun r => r.ano == 2020)).length = 1
    ∧ [some 2] ≠ (List.range' 1 1).map (some : Nat → Option Nat) := by
  refine ⟨?_, ?_, ?_⟩ <;> decide

/-- C4 (amended): when neither the program filter nor the municipality filter
is set, the bump block recomputes the leaderboard: for every period the output
ranks are the dense sequence 1..n with n ≤ 20, the output values are
non-increasing in rank, and every output value is the collapsed sum of
`valor || 0` over the period-filtered rows of its (municipality, year) pair.
When the program filter is set rows pass through with their original rank
field, and the municipality filter selects rows without re-ranking. -/
theorem crp_c4 (bump : List BumpRec) (eMin eMax : Option Nat) (y : Nat) :
    (((filterBump bump eMin eMax none none).filter (fun r => r.ano == y)).map (·.rank)
      = (List.range' 1 (((filterBump bump eMin eMax none none).filter
          (fun r => r.ano == y)).length)).map some)
    ∧ ((filterBump bump eMin eMax none none).filter (fun r => r.ano == y)).length ≤ 20
    ∧ (((filterBump bump eMin eMax none none).filter (fun r => r.ano == y)).map
        (fun r => r.valor.getD 0)).Pairwise (fun a b => b ≤ a)
    ∧ ∀ r ∈ filterBump bump eMin eMax none none,
        r.valor = some (bumpSum (bumpPeriodFilter bump eMin eMax) r.ano r.id) := by
  have hfb : filterBump bump eMin eMax none none =
      bumpRecompute (bumpPeriodFilter bump eMin eMax) := by
    simp [filterBump, truthyS]
  rw [hfb, bumpRecompute_filter]
  refine ⟨?_, ?_, ?_, ?_⟩
  · by_cases hy : y ∈ bumpYears ((bumpPeriodFilter bump eMin eMax).foldl upsertBump [])
    · rw [if_pos hy]
      exact bumpRankYear_ranks _ _
    · rw [if_neg hy]
      simp
  · by_cases hy : y ∈ bumpYears ((bumpPeriodFilter bump eMin eMax).foldl upsertBump [])
    · rw [if_pos hy]
      exact bumpRankYear_length _ _
    · rw [if_neg hy]
      simp
  · by_cases hy : y ∈ bumpYears ((bumpPeriodFilter bump eMin eMax).foldl upsertBump [])
    · rw [if_pos hy]
      exact bumpRankYear_sorted _ _
    · rw [if_neg hy]
      simp
  · intro r hr
    rw [bumpRecompute] at hr
    obtain ⟨y2, _, hr2⟩ := List.mem_flatMap.mp hr
    obtain ⟨e, he, hid, hano, hval, _⟩ := bumpRankYear_mem hr2
    rw [hval, hid, hano]
    exact congrArg some (bumpCollapse_mem_valor _ he)

/-- Two bump rows of the same municipality and year under different programs. -/
def c4BumpW : List BumpRec :=
  [{ id := "m1", ano := 2020, programa := some "P1", valor := some 10 },
   { id := "m1", ano := 2020, programa := some "P2", valor := some 5 }]

/-- Witness for C4 (amended) at a concrete input: the recomputed 2020 row of
municipality m1 carries the collapsed sum 15. -/
theorem crp_c4_witness :
    ({ id := "m1", ano := 2020, valor := some 15, rank := some 1 } : BumpRec).valor
      = some (bumpSum (bumpPeriodFilter c4BumpW none none) 2020 "m1") := by
  exact (crp_c4 c4BumpW none none 2020).2.2.2
    { id := "m1", ano := 2020, valor := some 15, rank := some 1 } (by decide)

/-! ### Claim C6: the aggregator -/

/-- The three records of the spec's Example A. -/
def exampleA : List Rec :=
  [{ ano := 2020, programa := some "P1", valor := some 100 },
   { ano := 2020, programa := some "P2", valor := some 300 },
   { ano := 2021, programa := some "P1", valor := some 150 }]

/-- C6: the aggregator groups by key in first-appearance order, sums the three
measures per group (missing measures as 0), carries the truthy `codIbge` of
the first record of each group, sorts by value descending with ties in
first-appearance order (stability), assigns dense ranks 1..N after sorting
when requested, top-K truncation keeps the already-assigned rank prefix, and
Example A aggregated by program yields P2 (300, rank 1) then P1 (250, rank 2). -/
theorem crp_c6 (items : List Rec) (keyOf : Rec → Option String) (ir : Bool) :
    (∀ g ∈ aggregateByKey items keyOf ir,
      g.valor = sumValor (groupItems keyOf items g.key) ∧
      g.contratos = sumContratos (groupItems keyOf items g.key) ∧
      g.area = sumArea (groupItems keyOf items g.key) ∧
      g.codIbge = firstCod (groupItems keyOf items g.key))
    ∧ ((aggregateByKey items keyOf ir).map (·.valor)).Pairwise (fun a b => b ≤ a)
    ∧ (ir = true → (aggregateByKey items keyOf ir).map (·.rank)
        = (List.range' 1 (aggregateByKey items keyOf ir).length).map some)
    ∧ (∀ K, ((aggregateByKey items keyOf true).take K).map (·.rank)
        = ((List.range' 1 (aggregateByKey items keyOf true).length).map some).take K)
    ∧ (∀ a b : AggRow, [a, b].Sublist (buildGroups keyOf items) → b.valor ≤ a.valor →
        [a, b].Sublist (sortDesc (fun g => g.valor) (buildGroups keyOf items)))
    ∧ (buildGroups keyOf items).map (·.key) = firstKeys (items.map keyOf)
    ∧ aggregateByKey exampleA (fun r => r.programa) true =
        [{ key := some "P2", valor := 300, contratos := 0, area := 0, rank := some 1 },
         { key := some "P1", valor := 250, contratos := 0, area := 0, rank := some 2 }] := by
  refine ⟨?_, ?_, ?_, ?_, ?_, ?_, ?_⟩
  · intro g hg
    exact aggregateByKey_mem_fields items keyOf ir hg
  · exact aggregateByKey_sorted items keyOf ir
  · intro hir
    subst hir
    exact aggregateByKey_ranks items keyOf
  · intro K
    rw [List.map_take, aggregateByKey_ranks]
  · intro a b hab hv
    exact pair_sublist_sortDesc _ hab hv
  · exact buildGroups_firstKeys keyOf items
  · decide

/-- Witness for C6 at Example A: the P2 group's value is the sum of its
records, and the ranks of the ranked output are the dense sequence. -/
theorem crp_c6_witness :
    ({ key := some "P2", valor := 300, contratos := 0, area := 0,
        rank := some 1 } : AggRow).valor
      = sumValor (groupItems (fun r => r.programa) exampleA (some "P2"))
    ∧ (aggregateByKey exampleA (fun r => r.programa) true).map (·.rank)
      = (List.range' 1 (aggregateByKey exampleA (fun r => r.programa) true).length).map
          some := by
  constructor
  · exact ((crp_c6 exampleA (fun r => r.programa) true).1
      { key := some "P2", valor := 300, contratos := 0, area := 0, rank := some 1 }
      (by decide)).1
  · exact (crp_c6 exampleA (fun r => r.programa) true).2.2.1 rfl

/-! ### Witnesses for C1 and C5 -/

theorem wfBound_some {k : Nat} (h : 0 < k) : wfBound (some k) := by
  intro n hn
  cases hn
  exact h

theorem wfBound_none : wfBound none := by
  intro n hn
  cases hn

/-- Witness for C1 at concrete inputs: the all-absent filter state is the
identity on a nonempty tuple of collections. -/
theorem crp_c1_witness :
    applyCategoricalFilters {} [{ ano := 2020 : Rec }] [] [] [] =
      ([{ ano := 2020 : Rec }], [], [], []) := by
  exact (crp_c1 {} [{ ano := 2020 : Rec }] [] [] []).2.2.2.2 rfl rfl rfl rfl

/-- Witness for C5 at concrete inputs: a record in the window's lower year but
below the month bound is excluded, and a truthy exact-year filter replaces the
effective bounds. -/
theorem crp_c5_witness :
    periodPass (some 2020) (some 2021) (some 3) none 2020 (some 2) = false
    ∧ effectiveAnoMin { ano := some 2019, anoMin := some 2000 } = some 2019 := by
  constructor
  · exact (crp_c5.1 (some 2020) (some 2021) (some 3) none 2020 (some 2)
      (wfBound_some (by decide)) (wfBound_some (by decide))
      (wfBound_some (by decide)) wfBound_none (wfBound_some (by decide))).mpr
      (Or.inr (Or.inr (Or.inl ⟨rfl, 3, rfl, by decide⟩)))
  · exact (crp_c5.2 { ano := some 2019, anoMin := some 2000 } 2019 rfl
      (by decide)).1

end CRP
